import Mathlib

/-!
# Verification of the attendance-to-payroll engine

A shallow embedding of the payroll engine of this repository
(`build_processor` in `src/app.py`): attendance loading and forward fill,
daily segmentation into time buckets, bonus and daily-overtime pay,
the weekly 42h top-up and its three reconciliation policies, sick-pay
tiering, and the statutory deduction chain down to net pay.

Modelling conventions:
* Python floats are modelled as exact rationals (`ℚ`); `round(x, 2)` is
  modelled as rounding half up to two decimals (`pyRound2`), the tie
  behaviour being immaterial to the statements proved here.
* Calendar dates are day numbers with day 0 = 1970-01-01 (a Thursday);
  datetimes are minutes since that epoch.  `DD/MM/YYYY` date strings and
  `HH:MM` time strings are parsed by executable Gregorian-calendar code.
* Text cells are lists of characters; Python's `in` on strings is the
  substring test `containsSub`, `str.strip` is `trimC`.
* Pandas tables are lists of rows; positional column arithmetic between
  two tables is index-wise, with `Option` standing for `NaN` produced by
  index misalignment.
-/

namespace Payroll

/-! ## Text primitives -/

/-- Text cells of the attendance table, as plain character lists. -/
abbrev Str := List Char

/-- Coerce a string literal into a character-list cell. -/
def txt (s : String) : Str := s.data

/-- Bool-valued prefix test for character lists. -/
def isPrefixB : Str → Str → Bool
  | [], _ => true
  | _ :: _, [] => false
  | a :: s, b :: t => a = b && isPrefixB s t

/-- Substring containment, Python's `needle in hay` on strings. -/
def containsSub (hay needle : Str) : Bool :=
  match hay with
  | [] => isPrefixB needle []
  | _ :: t => isPrefixB needle hay || containsSub t needle

/-- Whitespace characters stripped by Python's `str.strip()`. -/
def isWs (c : Char) : Bool := c = ' ' || c = '\t' || c = '\n' || c = '\r'

/-- Strip leading whitespace. -/
def trimL (s : Str) : Str := s.dropWhile isWs

/-- Python's `str.strip()`: strip whitespace on both ends. -/
def trimC (s : Str) : Str := (trimL (trimL s.reverse).reverse)

/-- Split a character list at every occurrence of the separator. -/
def splitOnC (sep : Char) : Str → List Str
  | [] => [[]]
  | c :: t =>
    let r := splitOnC sep t
    if c = sep then [] :: r
    else match r with
      | [] => [[c]]
      | h :: t2 => (c :: h) :: t2

/-- Numeric value of an all-digit character list, `none` otherwise. -/
def digitsVal : Str → Option ℕ
  | [] => none
  | cs => digitsGo cs 0
where digitsGo : Str → ℕ → Option ℕ
  | [], acc => some acc
  | c :: t, acc =>
    if '0' ≤ c ∧ c ≤ '9' then digitsGo t (acc * 10 + (c.toNat - '0'.toNat)) else none

/-! ## Configuration (`DEFAULT_PARAMS` and the sidebar overrides) -/

/-- The `WEEK_START` two-way enum. -/
inductive WeekStart | Sunday | Monday
deriving DecidableEq

/-- The `PENSION_BASE_MODE` two-way enum. -/
inductive PensionBaseMode | wage_only | include_all
deriving DecidableEq

/-- The `OT_BASIS` three-way enum: "Daily only", "Weekly 42h only",
"Daily + Weekly (max)". -/
inductive OTBasis | DailyOnly | Weekly42Only | DailyWeeklyMax
deriving DecidableEq

/-- The configuration record handed to `build_processor` (less `OT_BASIS`,
which is passed separately to `process` below). Tax bracket caps are
`Option ℚ`, with `none` standing for `float("inf")`. -/
structure Params where
  HOURLY_WAGE : ℚ
  EVENING_BONUS : ℚ
  NIGHT_BONUS : ℚ
  WEEKEND_BONUS : ℚ
  HOLIDAY_BONUS : ℚ
  DAILY_TRAVEL : ℚ
  SIBUS_MONTHLY : ℚ
  SICK_KEYWORD : Str
  NO_ATTENDANCE_KEYWORD : Str
  HOLIDAY_HINTS : List Str
  USE_AVG_HOURS_FOR_SICK : Bool
  DEFAULT_DAILY_SICK_HOURS : ℚ
  OVERTIME_T1_BONUS : ℚ
  OVERTIME_T2_BONUS : ℚ
  DAILY_REGULAR_HOURS : ℚ
  DAILY_T1_HOURS : ℚ
  CREDIT_POINTS : ℚ
  CREDIT_POINT_VALUE : ℚ
  TAX_BRACKETS : List (Option ℚ × ℚ)
  NI_THRESHOLD : ℚ
  NI_LOW : ℚ
  NI_HIGH : ℚ
  HEALTH_LOW : ℚ
  HEALTH_HIGH : ℚ
  EMPLOYEE_PENSION_RATE : ℚ
  PENSION_BASE_MODE : PensionBaseMode
  WEEK_START : WeekStart

/-- `DEFAULT_PARAMS` from `app.py`. -/
def defaultParams : Params where
  HOURLY_WAGE := 65
  EVENING_BONUS := 1/5
  NIGHT_BONUS := 3/10
  WEEKEND_BONUS := 1/2
  HOLIDAY_BONUS := 1/2
  DAILY_TRAVEL := 22
  SIBUS_MONTHLY := 450
  SICK_KEYWORD := txt "מחלה"
  NO_ATTENDANCE_KEYWORD := txt "אין דיווח נוכחות"
  HOLIDAY_HINTS := [txt "חג", txt "ערב חג"]
  USE_AVG_HOURS_FOR_SICK := true
  DEFAULT_DAILY_SICK_HOURS := 8
  OVERTIME_T1_BONUS := 1/4
  OVERTIME_T2_BONUS := 1/2
  DAILY_REGULAR_HOURS := 8
  DAILY_T1_HOURS := 2
  CREDIT_POINTS := 9/4
  CREDIT_POINT_VALUE := 235
  TAX_BRACKETS :=
    [(some 6790, 1/10), (some 9720, 7/50), (some 15760, 1/5),
     (some 21700, 31/100), (some 45180, 7/20), (none, 47/100)]
  NI_THRESHOLD := 7570
  NI_LOW := 1/250
  NI_HIGH := 7/100
  HEALTH_LOW := 31/1000
  HEALTH_HIGH := 1/20
  EMPLOYEE_PENSION_RATE := 7/100
  PENSION_BASE_MODE := .wage_only
  WEEK_START := .Sunday

/-! ## Calendar and clock parsing -/

/-- `date.weekday()` with Monday = 0, for day numbers with day 0 =
1970-01-01, a Thursday. -/
def pyWeekday (z : ℤ) : ℤ := (z + 3).emod 7

/-- Day number of a Gregorian `y-m-d` (civil-from-days inverse), day 0 =
1970-01-01.  Valid for `y ≥ 1`, `1 ≤ m ≤ 12`. -/
def daysFromCivil (y m d : ℕ) : ℤ :=
  let y' := if m ≤ 2 then y - 1 else y
  let era := y' / 400
  let yoe := y' % 400
  let mp := (m + 9) % 12
  let doy := (153 * mp + 2) / 5 + (d - 1)
  let doe := yoe * 365 + yoe / 4 - yoe / 100 + doy
  (era * 146097 + doe : ℤ) - 719468

/-- Gregorian leap year. -/
def isLeap (y : ℕ) : Bool := (y % 4 = 0 && y % 100 ≠ 0) || y % 400 = 0

/-- Length of month `m` of year `y`. -/
def daysInMonth (y m : ℕ) : ℕ :=
  if m = 2 then (if isLeap y then 29 else 28)
  else if m = 4 ∨ m = 6 ∨ m = 9 ∨ m = 11 then 30 else 31

/-- `datetime.strptime(s, "%d/%m/%Y").date()` as a day number; `none` when
the text does not denote a valid `DD/MM/YYYY` date. -/
def parseDMY (s : Str) : Option ℤ :=
  match splitOnC '/' s with
  | [ds, ms, ys] =>
    match digitsVal ds, digitsVal ms, digitsVal ys with
    | some d, some m, some y =>
      if ds.length ≤ 2 ∧ ms.length ≤ 2 ∧ ys.length ≤ 4 ∧ 1 ≤ y ∧
          1 ≤ m ∧ m ≤ 12 ∧ 1 ≤ d ∧ d ≤ daysInMonth y m
      then some (daysFromCivil y m d) else none
    | _, _, _ => none
  | _ => none

/-- `parse_date` of the engine applied to a cell: the cell is `none` when
the loader left it unfilled (pandas `NA`, stringified to an unparsable
placeholder), in which case parsing fails and the row is skipped. -/
def parse_date (c : Option Str) : Option ℤ := c.bind parseDMY

/-- `parse_hhmm`: minutes past midnight, or `none` for empty cells, the
placeholders `"."`/`"-"`, and unparsable text. -/
def parse_hhmm (s : Str) : Option ℕ :=
  let s := trimC s
  if s = [] ∨ s = txt "." ∨ s = txt "-" then none
  else match splitOnC ':' s with
    | [hs, ms] =>
      match digitsVal hs, digitsVal ms with
      | some h, some m =>
        if hs.length ≤ 2 ∧ ms.length ≤ 2 ∧ h ≤ 23 ∧ m ≤ 59
        then some (h * 60 + m) else none
      | _, _ => none
    | _ => none

/-- `overlap_minutes` on minute-valued datetimes. -/
def overlap_minutes (aS aE bS bE : ℤ) : ℤ := max 0 (min aE bE - max aS bS)

/-! ## Time-bucket windows (`compute_evening_minutes` and friends).
The Python `while` loops advance one calendar midnight per iteration; the
fuel arguments below strictly dominate the iteration counts. -/

/-- Body of the `compute_evening_minutes` loop: per calendar day touched,
overlap with that day's 16:00-24:00 window. -/
def evening_go : ℕ → ℤ → ℤ → ℤ → ℤ
  | 0, _, _, _ => 0
  | fuel + 1, s, e, cur =>
    if cur < e then
      let day := cur.fdiv 1440
      overlap_minutes s e (day * 1440 + 960) ((day + 1) * 1440) +
        evening_go fuel s e ((day + 1) * 1440)
    else 0

/-- `compute_evening_minutes`. -/
def compute_evening_minutes (s e : ℤ) : ℤ :=
  evening_go ((e - s).toNat / 1440 + 2) s e s

/-- Body of the `compute_night_minutes` loop: per day, overlap with
00:00-07:30. -/
def night_go : ℕ → ℤ → ℤ → ℤ → ℤ
  | 0, _, _, _ => 0
  | fuel + 1, s, e, cur =>
    if cur < e then
      let day := cur.fdiv 1440
      overlap_minutes s e (day * 1440) (day * 1440 + 450) +
        night_go fuel s e ((day + 1) * 1440)
    else 0

/-- `compute_night_minutes`. -/
def compute_night_minutes (s e : ℤ) : ℤ :=
  night_go ((e - s).toNat / 1440 + 2) s e s

/-- `iter_weekend_windows` loop body: Friday-16:00 to Sunday-07:30 windows,
one per week of the scanned range. -/
def weekend_windows_go : ℕ → ℤ → ℤ → List (ℤ × ℤ)
  | 0, _, _ => []
  | fuel + 1, d, dEnd =>
    if d ≤ dEnd then
      let off := (4 - pyWeekday d).emod 7
      let fri := d + off
      (fri * 1440 + 960, (fri + 2) * 1440 + 450) ::
        weekend_windows_go fuel (d + 7) dEnd
    else []

/-- `iter_weekend_windows`: windows for every week overlapping a ±3-day
margin around the interval. -/
def iter_weekend_windows (s e : ℤ) : List (ℤ × ℤ) :=
  let wStart := (s - 3 * 1440).fdiv 1440
  let wEnd := (e + 3 * 1440).fdiv 1440
  weekend_windows_go ((wEnd - wStart).toNat / 7 + 2) wStart wEnd

/-- `compute_weekend_minutes`. -/
def compute_weekend_minutes (s e : ℤ) : ℤ :=
  (iter_weekend_windows s e).foldl (fun acc w => acc + overlap_minutes s e w.1 w.2) 0

/-! ## Status keyword matching -/

/-- `is_holiday`: the status text contains some holiday hint. -/
def is_holiday (P : Params) (t : Str) : Bool :=
  P.HOLIDAY_HINTS.any (fun h => containsSub t h)

/-- `is_sick`: the status text contains the sick keyword. -/
def is_sick (P : Params) (t : Str) : Bool := containsSub t P.SICK_KEYWORD

/-- `is_no_att`: the status text contains the no-attendance keyword. -/
def is_no_att (P : Params) (t : Str) : Bool := containsSub t P.NO_ATTENDANCE_KEYWORD

/-! ## The input table and the attendance loader -/

/-- One raw CSV row: column name to cell text. -/
structure RawRow where
  cells : List (Str × Str)
deriving DecidableEq

/-- The raw CSV table handed to `process`. -/
structure RawTable where
  cols : List Str
  rows : List RawRow
deriving DecidableEq

/-- Cell of a row under a column name (pandas `row[col]`). -/
def getCell (r : RawRow) (c : Str) : Option Str :=
  (r.cells.find? (fun p => p.1 = c)).map (·.2)

/-- The six required input columns, in the order the loader checks them. -/
def requiredCols : List Str :=
  [txt "סה\"כ נוכחות", txt "שעת יציאה", txt "שעת כניסה",
   txt "סטטוס/הערות", txt "יום בשבוע", txt "תאריך"]

/-- A loaded attendance row: the date and day-of-week cells are `Option`al
(forward filled, `none` when still unfilled), the rest plain text. -/
structure SelRow where
  date : Option Str
  dayOfWeek : Option Str
  status : Str
  t_in : Str
  t_out : Str
deriving DecidableEq

/-- Default placeholder row. -/
instance : Inhabited SelRow := ⟨⟨none, none, [], [], []⟩⟩

/-- Placeholder values replaced by `NA` before the forward fill. -/
def placeholderCells : List Str :=
  [txt "", txt ".", txt "None", txt "nan", txt "NaN"]

/-- Strip a date/day cell and turn placeholders into `NA` (`none`). -/
def cleanCell (c : Option Str) : Option Str :=
  match c with
  | none => none
  | some v => let v' := trimC v; if v' ∈ placeholderCells then none else some v'

/-- Pandas `ffill` on one column: replace `NA` by the preceding value. -/
def ffillCol (last : Option Str) : List (Option Str) → List (Option Str)
  | [] => []
  | c :: t =>
    let cur := match c with | none => last | some v => some v
    cur :: ffillCol cur t

/-- `load_attendance_from_csv`: validate required columns (raising a named
error for the first missing one), then strip/normalise the date and
day-of-week columns and forward fill them. -/
def load_attendance_from_csv (t : RawTable) : Except Str (List SelRow) :=
  match requiredCols.find? (fun c => !(t.cols.contains c)) with
  | some c => .error (txt "עמודה חסרה בקובץ: " ++ c)
  | none =>
    let dates := ffillCol none (t.rows.map (fun r => cleanCell (getCell r (txt "תאריך"))))
    let days := ffillCol none (t.rows.map (fun r => cleanCell (getCell r (txt "יום בשבוע"))))
    .ok ((t.rows.zip (dates.zip days)).map (fun p =>
      { date := p.2.1
        dayOfWeek := p.2.2
        status := (getCell p.1 (txt "סטטוס/הערות")).getD []
        t_in := (getCell p.1 (txt "שעת כניסה")).getD []
        t_out := (getCell p.1 (txt "שעת יציאה")).getD [] }))

/-! ## Daily segmentation (`compute_daily_rows`) -/

/-- One segmented day (the dict built per row in `compute_daily_rows`). -/
structure DailyRow where
  date : ℤ
  status : Str
  is_sick : Bool
  holiday : Bool
  startEnd : Option (ℤ × ℤ)
  minutes_total : ℤ
  minutes_evening : ℤ
  minutes_night : ℤ
  minutes_weekend : ℤ
  minutes_holiday : ℤ
  worked_day : Bool
deriving DecidableEq

/-- Default all-zero daily row. -/
instance : Inhabited DailyRow := ⟨⟨0, [], false, false, none, 0, 0, 0, 0, 0, false⟩⟩

/-- The row loop of `compute_daily_rows`: skip no-attendance rows and rows
with unparsable dates; sick rows become zero-bucket rows; worked rows get
their interval (rolled past midnight when clock-out ≤ clock-in) cut into
the evening/night/weekend/holiday buckets. -/
def dailyRowsCore (P : Params) : List SelRow → List DailyRow
  | [] => []
  | r :: rest =>
    let status := trimC r.status
    if is_no_att P status then dailyRowsCore P rest
    else match parse_date r.date with
      | none => dailyRowsCore P rest
      | some date =>
        let holiday_flag := is_holiday P status
        if is_sick P status then
          { date := date, status := status, is_sick := true, holiday := holiday_flag
            startEnd := none, minutes_total := 0, minutes_evening := 0
            minutes_night := 0, minutes_weekend := 0, minutes_holiday := 0
            worked_day := false } :: dailyRowsCore P rest
        else match parse_hhmm r.t_in, parse_hhmm r.t_out with
          | some ti, some to2 =>
            let start := date * 1440 + ti
            let en0 := date * 1440 + to2
            let en := if en0 ≤ start then en0 + 1440 else en0
            let mt := en - start
            if mt ≤ 0 then dailyRowsCore P rest
            else
              { date := date, status := status, is_sick := false, holiday := holiday_flag
                startEnd := some (start, en), minutes_total := mt
                minutes_evening := compute_evening_minutes start en
                minutes_night := compute_night_minutes start en
                minutes_weekend := compute_weekend_minutes start en
                minutes_holiday := if holiday_flag then mt else 0
                worked_day := true } :: dailyRowsCore P rest
          | _, _ => dailyRowsCore P rest

/-- Sort key relation used by every `sort_values("תאריך")`. -/
def dDateLE (a b : DailyRow) : Prop := a.date ≤ b.date

instance : DecidableRel dDateLE := fun a b => inferInstanceAs (Decidable (a.date ≤ b.date))
instance : IsTotal DailyRow dDateLE := ⟨fun a b => le_total a.date b.date⟩
instance : IsTrans DailyRow dDateLE := ⟨fun _ _ _ h h' => le_trans h h'⟩

/-- `compute_daily_rows`: the row loop followed by `sort_values("תאריך")`. -/
def compute_daily_rows (P : Params) (sel : List SelRow) : List DailyRow :=
  List.insertionSort dDateLE (dailyRowsCore P sel)

/-! ## Bonus and daily-overtime pay (`add_pay_columns`) -/

/-- A paid day: a daily row with all hour and pay columns of the engine. -/
structure PaidRow where
  date : ℤ
  status : Str
  is_sick : Bool
  holiday : Bool
  worked_day : Bool
  minutes_total : ℤ
  minutes_evening : ℤ
  minutes_night : ℤ
  minutes_weekend : ℤ
  minutes_holiday : ℤ
  hours_total : ℚ
  hours_evening : ℚ
  hours_night : ℚ
  hours_weekend : ℚ
  hours_holiday : ℚ
  hours_morning : ℚ
  pay_base : ℚ
  pay_evening_bonus : ℚ
  pay_night_bonus : ℚ
  pay_weekend_bonus : ℚ
  pay_holiday_bonus : ℚ
  hours_ot_t1 : ℚ
  hours_ot_t2 : ℚ
  pay_overtime_t1 : ℚ
  pay_overtime_t2 : ℚ
  travel_pay : ℚ
  pay_total_day : ℚ
  hours_regular_day : ℚ
  weekly_topup_125 : ℚ
  weekly_topup_150 : ℚ
  pay_weekly_topup : ℚ
  pay_sick : ℚ
deriving DecidableEq

/-- Default all-zero paid row. -/
instance : Inhabited PaidRow :=
  ⟨⟨0, [], false, false, false, 0, 0, 0, 0, 0, 0, 0, 0, 0, 0, 0, 0, 0, 0,
    0, 0, 0, 0, 0, 0, 0, 0, 0, 0, 0, 0, 0⟩⟩

/-- Sort key relation on paid rows. -/
def pDateLE (a b : PaidRow) : Prop := a.date ≤ b.date

instance : DecidableRel pDateLE := fun a b => inferInstanceAs (Decidable (a.date ≤ b.date))
instance : IsTotal PaidRow pDateLE := ⟨fun a b => le_total a.date b.date⟩
instance : IsTrans PaidRow pDateLE := ⟨fun _ _ _ h h' => le_trans h h'⟩

/-- The per-row column block of `add_pay_columns`: hours from minutes,
base pay, the four bucket bonuses, and the daily overtime split.  Travel
and the daily total are filled in afterwards. -/
def payColsRow (P : Params) (d : DailyRow) : PaidRow :=
  let hours_total : ℚ := d.minutes_total / 60
  let hours_evening : ℚ := d.minutes_evening / 60
  let hours_night : ℚ := d.minutes_night / 60
  let hours_weekend : ℚ := d.minutes_weekend / 60
  let hours_holiday : ℚ := d.minutes_holiday / 60
  let overtime := max (hours_total - P.DAILY_REGULAR_HOURS) 0
  let hours_ot_t1 := min overtime P.DAILY_T1_HOURS
  { date := d.date, status := d.status, is_sick := d.is_sick, holiday := d.holiday
    worked_day := d.worked_day
    minutes_total := d.minutes_total, minutes_evening := d.minutes_evening
    minutes_night := d.minutes_night, minutes_weekend := d.minutes_weekend
    minutes_holiday := d.minutes_holiday
    hours_total := hours_total, hours_evening := hours_evening
    hours_night := hours_night, hours_weekend := hours_weekend
    hours_holiday := hours_holiday
    hours_morning := max (hours_total - hours_evening - hours_night) 0
    pay_base := hours_total * P.HOURLY_WAGE
    pay_evening_bonus := hours_evening * P.HOURLY_WAGE * P.EVENING_BONUS
    pay_night_bonus := hours_night * P.HOURLY_WAGE * P.NIGHT_BONUS
    pay_weekend_bonus := hours_weekend * P.HOURLY_WAGE * P.WEEKEND_BONUS
    pay_holiday_bonus := hours_holiday * P.HOURLY_WAGE * P.HOLIDAY_BONUS
    hours_ot_t1 := hours_ot_t1
    hours_ot_t2 := max (overtime - hours_ot_t1) 0
    pay_overtime_t1 := hours_ot_t1 * P.HOURLY_WAGE * P.OVERTIME_T1_BONUS
    pay_overtime_t2 := max (overtime - hours_ot_t1) 0 * P.HOURLY_WAGE * P.OVERTIME_T2_BONUS
    travel_pay := 0, pay_total_day := 0, hours_regular_day := 0
    weekly_topup_125 := 0, weekly_topup_150 := 0, pay_weekly_topup := 0, pay_sick := 0 }

/-- The travel loop of `add_pay_columns`: within each calendar date the
first worked, non-sick segment is credited the flat daily travel amount;
`done` accumulates the dates already credited. -/
def assignTravel (P : Params) : List ℤ → List PaidRow → List PaidRow
  | _, [] => []
  | done, r :: t =>
    if r.worked_day ∧ ¬ r.is_sick ∧ r.date ∉ done
    then { r with travel_pay := P.DAILY_TRAVEL } :: assignTravel P (r.date :: done) t
    else r :: assignTravel P done t

/-- The `pay_total_day` column: every pay component of the day summed. -/
def setTotal (r : PaidRow) : PaidRow :=
  { r with pay_total_day :=
      r.pay_base + r.pay_evening_bonus + r.pay_night_bonus +
      r.pay_weekend_bonus + r.pay_holiday_bonus +
      r.pay_overtime_t1 + r.pay_overtime_t2 + r.travel_pay }

/-- `add_pay_columns`. -/
def add_pay_columns (P : Params) (daily : List DailyRow) : List PaidRow :=
  (assignTravel P [] (daily.map (payColsRow P))).map setTotal

/-! ## Weekly 42h top-up (`compute_weekly_overtime_topup`) -/

/-- `week_period_series`: the calendar-week index of a day number, weeks
ending Saturday (`W-SAT`) under a Sunday week start and ending Sunday
(`W-SUN`) under a Monday week start. -/
def weekKey (P : Params) (z : ℤ) : ℤ :=
  if P.WEEK_START = .Sunday then (z + 4).fdiv 7 else (z + 3).fdiv 7

/-- The greedy excess-allocation walk within one week: each day consumes
`min(its regular hours, remaining excess)` paid at the tier-1 rate; once
the excess is exhausted the remaining days get nothing. -/
def allocWeekGo (P : Params) : ℚ → List ℚ → List ℚ
  | _, [] => []
  | remain, reg :: t =>
    if remain ≤ 0 then 0 :: allocWeekGo P remain t
    else
      let take := min reg remain
      take * P.HOURLY_WAGE * P.OVERTIME_T1_BONUS :: allocWeekGo P (remain - take) t

/-- The per-index top-up amounts: group row indices by week key (pandas
`groupby`, keys in first-appearance order), sort each group by date, and
run the greedy walk on the week's excess over the threshold. -/
def weeklyAllocPairs (P : Params) (threshold : ℚ) (rows : List PaidRow) :
    List (ℕ × ℚ) :=
  let en := rows.enum
  let keys := (rows.map (fun r => weekKey P r.date)).dedup
  keys.flatMap (fun k =>
    let g := en.filter (fun p => weekKey P p.2.date = k)
    let gSorted := List.insertionSort (fun a b : ℕ × PaidRow => a.2.date ≤ b.2.date) g
    let regs := gSorted.map (fun p => min p.2.hours_total P.DAILY_REGULAR_HOURS)
    let excess := max 0 (regs.sum - threshold)
    (gSorted.map (·.1)).zip (allocWeekGo P excess regs))

/-- Look up a row's allocated top-up by index (unallocated rows get 0). -/
def allocLookup (pairs : List (ℕ × ℚ)) (i : ℕ) : ℚ :=
  ((pairs.find? (fun p => p.1 = i)).map (·.2)).getD 0

/-- `compute_weekly_overtime_topup`: adds the `hours_regular_day`,
`weekly_topup_125` and `weekly_topup_150` columns. -/
def compute_weekly_overtime_topup (P : Params) (threshold : ℚ)
    (rows : List PaidRow) : List PaidRow :=
  let pairs := weeklyAllocPairs P threshold rows
  rows.enum.map (fun p =>
    { p.2 with
      hours_regular_day := min p.2.hours_total P.DAILY_REGULAR_HOURS
      weekly_topup_125 := allocLookup pairs p.1
      weekly_topup_150 := 0 })

/-! ## Sick pay (`add_sick_pay`) -/

/-- The average daily hours used as the sick-pay base: mean `hours_total`
over the worked rows when averaging is enabled and some exist, otherwise
the configured fallback. -/
def sickAvgHours (P : Params) (df : List PaidRow) : ℚ :=
  if P.USE_AVG_HOURS_FOR_SICK then
    let wh := (df.filter (·.worked_day)).map (·.hours_total)
    if wh.length > 0 then wh.sum / wh.length else P.DEFAULT_DAILY_SICK_HOURS
  else P.DEFAULT_DAILY_SICK_HOURS

/-- The distinct sick dates of the original table, sorted ascending:
rows whose (stripped) status is sick and not no-attendance and whose date
cell parses. -/
def sick_dates (P : Params) (sel : List SelRow) : List ℤ :=
  List.insertionSort (· ≤ ·)
    ((sel.filterMap (fun r =>
      let s := trimC r.status
      if is_sick P s ∧ ¬ is_no_att P s then parse_date r.date else none)).dedup)

/-- The sick-pay percentage for rank `k` within a run: rank 1 gets 0%,
ranks 2-3 get 50%, rank 4 and above get 100%. -/
def tierPct (k : ℕ) : ℚ := if k = 1 then 0 else if k = 2 ∨ k = 3 then 1/2 else 1

/-- The run scan of `add_sick_pay` after its first date: while the next
date continues the run (gap exactly one day) the rank advances, otherwise
a new run starts at rank 1. -/
def payRunGo (base : ℚ) : ℕ → ℤ → List ℤ → List (ℤ × ℚ)
  | _, _, [] => []
  | k, prev, d :: t =>
    if d - prev = 1 then (d, base * tierPct (k + 1)) :: payRunGo base (k + 1) d t
    else (d, base * tierPct 1) :: payRunGo base 1 d t

/-- `pay_map` of `add_sick_pay`: each sorted distinct sick date paired with
`base * pct(rank)`, where `base = avg_hours * HOURLY_WAGE`. -/
def build_pay_map (base : ℚ) : List ℤ → List (ℤ × ℚ)
  | [] => []
  | d :: t => (d, base * tierPct 1) :: payRunGo base 1 d t

/-- The pay map the allocator computes inside `add_sick_pay`. -/
def sickMap (P : Params) (df : List PaidRow) (sel : List SelRow) : List (ℤ × ℚ) :=
  build_pay_map (sickAvgHours P df * P.HOURLY_WAGE) (sick_dates P sel)

/-- Pay-map lookup by date. -/
def mapLookup (m : List (ℤ × ℚ)) (d : ℤ) : Option ℚ :=
  (m.find? (fun p => p.1 = d)).map (·.2)

/-- Zeroing a sick date's row: all work-derived pay columns and the weekly
top-up columns are set to 0 and `pay_sick` to the tier amount (the
combined `pay_weekly_topup` column is not in the zeroed list). -/
def zeroWorkCols (r : PaidRow) (pay : ℚ) : PaidRow :=
  { r with
    pay_base := 0, pay_evening_bonus := 0, pay_night_bonus := 0
    pay_weekend_bonus := 0, pay_holiday_bonus := 0
    pay_overtime_t1 := 0, pay_overtime_t2 := 0, travel_pay := 0
    pay_total_day := 0, weekly_topup_125 := 0, weekly_topup_150 := 0
    pay_sick := pay }

/-- The all-zero row synthesised for a sick date absent from the table. -/
def newSickRow (d : ℤ) (pay : ℚ) : PaidRow :=
  { (default : PaidRow) with
    date := d
    status := txt "מחלה"
    is_sick := true
    pay_sick := pay }

/-- One pay-map entry applied to the table: update every row of that date
when present, otherwise append the synthesised row. -/
def sickStep (acc : List PaidRow) (dp : ℤ × ℚ) : List PaidRow :=
  if acc.any (fun r => r.date = dp.1)
  then acc.map (fun r => if r.date = dp.1 then zeroWorkCols r dp.2 else r)
  else acc ++ [newSickRow dp.1 dp.2]

/-- `add_sick_pay`. -/
def add_sick_pay (P : Params) (df : List PaidRow) (sel : List SelRow) :
    List PaidRow :=
  if sick_dates P sel = [] then df.map (fun r => { r with pay_sick := 0 })
  else
    List.insertionSort pDateLE
      ((sickMap P df sel).foldl sickStep (df.map (fun r => { r with pay_sick := 0 })))

/-! ## Taxes and deductions -/

/-- Round half up to two decimals, modelling Python's `round(x, 2)` (the
half-to-even tie rule of floats differs only at exact midpoints, which
none of the statements below depend on). -/
def pyRound2 (q : ℚ) : ℚ := ((Rat.floor (100 * q + 1/2) : ℤ) : ℚ) / 100

/-- The bracket walk of `income_tax_before_credit`: accumulate
`rate * (cap − previous_cap)` while the taxable amount exceeds the cap,
and stop at the first bracket containing it (an unbounded cap, `none`,
always stops). -/
def taxGo (x : ℚ) : List (Option ℚ × ℚ) → ℚ → ℚ → ℚ
  | [], tax, _ => max 0 (pyRound2 tax)
  | (some c, rate) :: rest, tax, last =>
    if c < x then taxGo x rest (tax + (c - last) * rate) c
    else max 0 (pyRound2 (tax + (x - last) * rate))
  | (none, rate) :: _, tax, last => max 0 (pyRound2 (tax + (x - last) * rate))

/-- `income_tax_before_credit` over a bracket list. -/
def income_tax_before_credit (brackets : List (Option ℚ × ℚ)) (x : ℚ) : ℚ :=
  taxGo x brackets 0 0

/-- `apply_credit_points`. -/
def apply_credit_points (P : Params) (tax_before : ℚ) : ℚ :=
  max 0 (pyRound2 (tax_before - P.CREDIT_POINTS * P.CREDIT_POINT_VALUE))

/-- `ni_health`: the two-tier social-insurance and health levies. -/
def ni_health (P : Params) (gross : ℚ) : ℚ × ℚ :=
  let low := min gross P.NI_THRESHOLD
  let high := max 0 (gross - P.NI_THRESHOLD)
  (pyRound2 (low * P.NI_LOW + high * P.NI_HIGH),
   pyRound2 (low * P.HEALTH_LOW + high * P.HEALTH_HIGH))

/-! ## The full pipeline (`process`) -/

/-- The monthly result of `process`: the final day table and the summary
figures feeding the deduction chain. -/
structure ProcResult where
  rows : List PaidRow
  wage_components : ℚ
  travel_sum : ℚ
  monthly_gross_taxable : ℚ
  pension_base : ℚ
  employee_pension : ℚ
  ni : ℚ
  health : ℚ
  tax_before : ℚ
  tax_after : ℚ
  net : ℚ
deriving DecidableEq

/-- `process` for a given overtime basis: load, segment, pay, reconcile
weekly against daily according to the basis, apply sick pay, then the
deduction chain. -/
def process (P : Params) (basis : OTBasis) (t : RawTable) :
    Except Str ProcResult :=
  match load_attendance_from_csv t with
  | .error e => .error e
  | .ok selected =>
    let daily := compute_daily_rows P selected
    let paid := add_pay_columns P daily
    let paid_week :=
      if basis = .DailyOnly then paid.map (fun r => { r with pay_weekly_topup := 0 })
      else (compute_weekly_overtime_topup P 42 paid).map
        (fun r => { r with pay_weekly_topup := r.weekly_topup_125 + r.weekly_topup_150 })
    let paid_week2 := add_sick_pay P paid_week selected
    let paid_final :=
      match basis with
      | .Weekly42Only =>
        paid_week2.map (fun r =>
          { r with
            pay_overtime_t1 := 0
            pay_overtime_t2 := 0
            pay_total_day :=
              r.pay_base + r.pay_evening_bonus + r.pay_night_bonus +
              r.pay_weekend_bonus + r.pay_holiday_bonus +
              r.travel_pay + r.pay_weekly_topup })
      | .DailyWeeklyMax =>
        let modelA := add_sick_pay P (paid.map (fun r => { r with pay_weekly_topup := 0 })) selected
        let modelB := paid_week2
        let modelBnoDaily := paid.map (fun r =>
          { r with pay_overtime_t1 := 0, pay_overtime_t2 := 0 })
        modelA.enum.map (fun p =>
          let bTot : Option ℚ :=
            if p.1 < modelBnoDaily.length then
              let nb := modelBnoDaily.getD p.1 default
              some (nb.pay_base + nb.pay_evening_bonus + nb.pay_night_bonus +
                nb.pay_weekend_bonus + nb.pay_holiday_bonus + nb.travel_pay +
                (modelB.getD p.1 default).pay_weekly_topup)
            else none
          let tot := match bTot with
            | some b => if p.2.pay_total_day < b then b else p.2.pay_total_day
            | none => p.2.pay_total_day
          { p.2 with pay_total_day := tot, pay_weekly_topup := 0 })
      | .DailyOnly => paid_week2.map (fun r => { r with pay_weekly_topup := 0 })
    let wage_components :=
      (paid_final.map (·.pay_base)).sum +
      (paid_final.map (·.pay_evening_bonus)).sum +
      (paid_final.map (·.pay_night_bonus)).sum +
      (paid_final.map (·.pay_weekend_bonus)).sum +
      (paid_final.map (·.pay_holiday_bonus)).sum +
      (paid_final.map (·.pay_overtime_t1)).sum +
      (paid_final.map (·.pay_overtime_t2)).sum +
      (paid_final.map (·.pay_weekly_topup)).sum +
      (paid_final.map (·.pay_sick)).sum
    let travel_sum := (paid_final.map (·.travel_pay)).sum
    let monthly_gross_taxable := wage_components + travel_sum + P.SIBUS_MONTHLY
    let pension_base :=
      if P.PENSION_BASE_MODE = .include_all then monthly_gross_taxable else wage_components
    let employee_pension := pyRound2 (pension_base * P.EMPLOYEE_PENSION_RATE)
    let nih := ni_health P monthly_gross_taxable
    let tax_before := income_tax_before_credit P.TAX_BRACKETS monthly_gross_taxable
    let tax_after := apply_credit_points P tax_before
    .ok
      { rows := paid_final
        wage_components := wage_components
        travel_sum := travel_sum
        monthly_gross_taxable := monthly_gross_taxable
        pension_base := pension_base
        employee_pension := employee_pension
        ni := nih.1
        health := nih.2
        tax_before := tax_before
        tax_after := tax_after
        net := monthly_gross_taxable - (employee_pension + nih.1 + nih.2 + tax_after) }

/-- The final day table of a pipeline run (empty on a validation error). -/
def okRows (e : Except Str ProcResult) : List PaidRow :=
  match e with | .ok r => r.rows | .error _ => []

/-- The loaded rows of the loader's result (empty on a validation error). -/
def okSel (e : Except Str (List SelRow)) : List SelRow :=
  match e with | .ok r => r | .error _ => []

/-- A property of the result of a successful pipeline run (trivially true
on a validation error, where there is no output). -/
def OnOk (e : Except Str ProcResult) (Q : ProcResult → Prop) : Prop :=
  match e with | .ok r => Q r | .error _ => True

/-! ## Specification-side definitions, for comparison with the engine -/

/-- Search for the first worked-and-non-sick segment of a given date,
counting positions from `i`. -/
def firstWorkedIdxGo (dt : ℤ) : List DailyRow → ℕ → Option ℕ
  | [], _ => none
  | d :: t, i =>
    if d.date = dt ∧ d.worked_day ∧ ¬ d.is_sick then some i
    else firstWorkedIdxGo dt t (i + 1)

/-- The position of the first worked-and-non-sick segment of date `dt` in
the daily table, per the travel-allowance specification. -/
def firstWorkedIdx (l : List DailyRow) (dt : ℤ) : Option ℕ := firstWorkedIdxGo dt l 0

/-- The per-row effect of the sick allocator on a table that already
contains every sick date: rows of a sick date are zeroed and carry the
tier amount, every other row only gets the fresh `pay_sick = 0` column. -/
def sickAdjust (m : List (ℤ × ℚ)) (r : PaidRow) : PaidRow :=
  match mapLookup m r.date with
  | some p => zeroWorkCols r p
  | none => { r with pay_sick := 0 }

/-- Ranked tier payments for one run of consecutive sick dates: the `k`-th
listed date (counting from `k`) pays `base * pct(k)`. -/
def rankSeq (base : ℚ) : ℕ → List ℤ → List (ℤ × ℚ)
  | _, [] => []
  | k, d :: t => (d, base * tierPct k) :: rankSeq base (k + 1) t

/-- The bracket walk with the boundary comparison made non-strict, i.e.
the variant that computes a taxable amount sitting exactly on a cap with
the NEXT bracket's formula.  Agreement with `taxGo` expresses continuity
of the tax function at every bracket boundary. -/
def taxGoStrict (x : ℚ) : List (Option ℚ × ℚ) → ℚ → ℚ → ℚ
  | [], tax, _ => max 0 (pyRound2 tax)
  | (some c, rate) :: rest, tax, last =>
    if c ≤ x then taxGoStrict x rest (tax + (c - last) * rate) c
    else max 0 (pyRound2 (tax + (x - last) * rate))
  | (none, rate) :: _, tax, last => max 0 (pyRound2 (tax + (x - last) * rate))

/-- `income_tax_before_credit` computed with the next bracket's formula at
every boundary. -/
def income_tax_next_bracket (brackets : List (Option ℚ × ℚ)) (x : ℚ) : ℚ :=
  taxGoStrict x brackets 0 0

/-- Cap comparison treating `none` as `+∞`. -/
def capLE (lo cap : Option ℚ) : Bool :=
  match lo, cap with
  | some l, some c => decide (l ≤ c)
  | some _, none => true
  | none, some _ => false
  | none, none => true

/-- Caps non-decreasing from a given previous cap on. -/
def capsChainB : Option ℚ → List (Option ℚ × ℚ) → Bool
  | _, [] => true
  | prev, (cap, _) :: rest => capLE prev cap && capsChainB cap rest

/-- Ordered bracket list: caps non-decreasing. -/
def capsOK : List (Option ℚ × ℚ) → Bool
  | [] => true
  | (cap, _) :: rest => capsChainB cap rest

/-- All bracket rates non-negative. -/
def ratesOK (bs : List (Option ℚ × ℚ)) : Bool := bs.all (fun p => decide (0 ≤ p.2))

/-- The final bracket cap is unbounded. -/
def lastUnbounded (bs : List (Option ℚ × ℚ)) : Bool :=
  match bs.getLast? with | some (none, _) => true | _ => false

/-- A rational that is a whole number of hundredths (a whole amount of
agorot); the two-decimal rounding fixes exactly these. -/
def TwoDp (q : ℚ) : Prop := (100 * q).den = 1

/-- Decidable boundary condition between a run of consecutive dates and
its neighbour: the gap is not one day (so the run is maximal). -/
def gapBreak (x? y? : Option ℤ) : Bool :=
  match x?, y? with
  | some x, some y => decide (y - x ≠ 1)
  | _, _ => true

/-- Consecutive calendar dates: each next date is exactly one day after
the previous one. -/
def chainOneB : List ℤ → Bool
  | [] => true
  | [_] => true
  | a :: b :: t => decide (b - a = 1) && chainOneB (b :: t)

/-- The forward-fill specification: the nearest preceding explicit value
at or before position `i`, `none` when every value up to `i` is missing. -/
def lastExplicit (cells : List (Option Str)) (i : ℕ) : Option Str :=
  ((cells.take (i + 1)).reverse).findSome? id

/-- All six required columns present. -/
def requiredPresent (t : RawTable) : Bool := requiredCols.all (t.cols.contains ·)

/-! ## Concrete inputs used by the witnesses and counterexamples -/

/-- Build a raw attendance row from its six cells. -/
def mkRow (date day status tin tout tot : String) : RawRow :=
  ⟨[(txt "תאריך", txt date), (txt "יום בשבוע", txt day),
    (txt "סטטוס/הערות", txt status), (txt "שעת כניסה", txt tin),
    (txt "שעת יציאה", txt tout), (txt "סה\"כ נוכחות", txt tot)]⟩

/-- The concrete scenario of the specification: a single workday,
Monday 06/10/2025, clock-in 09:00, clock-out 19:00. -/
def exTable7 : RawTable :=
  ⟨requiredCols, [mkRow "06/10/2025" "שני" "" "09:00" "19:00" "10:00"]⟩

/-- Five consecutive sick calendar dates. -/
def exTableSick : RawTable :=
  ⟨requiredCols,
   [mkRow "06/10/2025" "שני" "מחלה" "" "" "",
    mkRow "07/10/2025" "שלישי" "מחלה" "" "" "",
    mkRow "08/10/2025" "רביעי" "מחלה" "" "" "",
    mkRow "09/10/2025" "חמישי" "מחלה" "" "" "",
    mkRow "10/10/2025" "שישי" "מחלה" "" "" ""]⟩

/-- Two plain 8-hour workdays in one week. -/
def exTableTwoDays : RawTable :=
  ⟨requiredCols,
   [mkRow "06/10/2025" "שני" "" "08:00" "16:00" "",
    mkRow "07/10/2025" "שלישי" "" "08:00" "16:00" ""]⟩

/-- A table offering only the date column: five required columns missing. -/
def exTableMissing : RawTable := ⟨[txt "תאריך"], []⟩

/-- A split shift whose second segment has a placeholder date cell, plus a
leading row with no explicit date at all. -/
def exTableSplit : RawTable :=
  ⟨requiredCols,
   [mkRow "." "." "" "08:00" "12:00" "",
    mkRow "06/10/2025" "שני" "" "08:00" "12:00" "",
    mkRow "." "." "" "13:00" "17:00" ""]⟩

/-- The paid-day table of the single-workday scenario. -/
def exPaid7 : List PaidRow :=
  add_pay_columns defaultParams
    (compute_daily_rows defaultParams (okSel (load_attendance_from_csv exTable7)))

/-- Paid-row variant of the first worked-and-non-sick search, counting
from `i`. -/
def firstQualIdxPGo (dt : ℤ) : List PaidRow → ℕ → Option ℕ
  | [], _ => none
  | r :: t, i =>
    if r.date = dt ∧ r.worked_day ∧ ¬ r.is_sick then some i
    else firstQualIdxPGo dt t (i + 1)

/-- Position of the first worked-and-non-sick row of date `dt` in a paid
table. -/
def firstQualIdxP (l : List PaidRow) (dt : ℤ) : Option ℕ := firstQualIdxPGo dt l 0

/-- Applying the accumulated part of the pay map to one row: rows whose
date is in the map get zeroed with the tier amount, the rest are left
untouched. -/
def sickUpd (m : List (ℤ × ℚ)) (r : PaidRow) : PaidRow :=
  match mapLookup m r.date with
  | some p => zeroWorkCols r p
  | none => r

/-- A Boolean check on the result of a successful pipeline run (false on
a validation error). -/
def okChk (e : Except Str ProcResult) (f : ProcResult → Bool) : Bool :=
  match e with | .ok r => f r | .error _ => false

/-- The default configuration with a credit amount of a third of a
shekel — not a whole number of cents. -/
def cexParams : Params :=
  { defaultParams with CREDIT_POINTS := 1/3, CREDIT_POINT_VALUE := 1 }

/-- Nonnegativity of a paid row's work-derived pay components (base, the
four bucket bonuses and travel). -/
def nonnegComponents (r : PaidRow) : Prop :=
  0 ≤ r.pay_base ∧ 0 ≤ r.pay_evening_bonus ∧ 0 ≤ r.pay_night_bonus ∧
  0 ≤ r.pay_weekend_bonus ∧ 0 ≤ r.pay_holiday_bonus ∧ 0 ≤ r.travel_pay

/-- The paid-day table of a loaded month: segmentation followed by the
bonus/daily-overtime calculator. -/
def pipePaid (P : Params) (sel : List SelRow) : List PaidRow :=
  add_pay_columns P (compute_daily_rows P sel)

/-- The weekly-reconciled table: the 42h top-up walk plus the combined
`pay_weekly_topup` column. -/
def pipePaidWeek (P : Params) (sel : List SelRow) : List PaidRow :=
  (compute_weekly_overtime_topup P 42 (pipePaid P sel)).map
    (fun r => { r with pay_weekly_topup := r.weekly_topup_125 + r.weekly_topup_150 })

/-- Model A of the max basis: the pure-daily table (top-up zeroed) with
sick pay applied. -/
def modelADef (P : Params) (sel : List SelRow) : List PaidRow :=
  add_sick_pay P ((pipePaid P sel).map (fun r => { r with pay_weekly_topup := 0 })) sel

/-- Model B of the max basis: the weekly-reconciled table with sick pay
applied. -/
def modelBDef (P : Params) (sel : List SelRow) : List PaidRow :=
  add_sick_pay P (pipePaidWeek P sel) sel

/-- The pure-daily table with the daily overtime pay removed, used for
model B's per-day total. -/
def modelBnoDailyDef (P : Params) (sel : List SelRow) : List PaidRow :=
  (pipePaid P sel).map (fun r =>
    { r with pay_overtime_t1 := 0, pay_overtime_t2 := 0 })

/-- The final day table of the "Daily + Weekly (max)" basis. -/
def maxRowsDef (P : Params) (sel : List SelRow) : List PaidRow :=
  (modelADef P sel).enum.map (fun p =>
    let bTot : Option ℚ :=
      if p.1 < (modelBnoDailyDef P sel).length then
        let nb := (modelBnoDailyDef P sel).getD p.1 default
        some (nb.pay_base + nb.pay_evening_bonus + nb.pay_night_bonus +
          nb.pay_weekend_bonus + nb.pay_holiday_bonus + nb.travel_pay +
          ((modelBDef P sel).getD p.1 default).pay_weekly_topup)
      else none
    let tot := match bTot with
      | some b => if p.2.pay_total_day < b then b else p.2.pay_total_day
      | none => p.2.pay_total_day
    { p.2 with pay_total_day := tot, pay_weekly_topup := 0 })

/-- The final day table of the "Daily only" basis. -/
def dailyRowsDef (P : Params) (sel : List SelRow) : List PaidRow :=
  (modelADef P sel).map (fun r => { r with pay_weekly_topup := 0 })

/-- The final day table of the "Weekly 42h only" basis. -/
def weeklyRowsDef (P : Params) (sel : List SelRow) : List PaidRow :=
  (modelBDef P sel).map (fun r =>
    { r with
      pay_overtime_t1 := 0
      pay_overtime_t2 := 0
      pay_total_day :=
        r.pay_base + r.pay_evening_bonus + r.pay_night_bonus +
        r.pay_weekend_bonus + r.pay_holiday_bonus +
        r.travel_pay + r.pay_weekly_topup })

/-- Model B's per-day total at index `i`: the no-daily-overtime components
of the pure-daily row plus model B's combined weekly top-up. -/
def bTotDef (P : Params) (sel : List SelRow) (i : ℕ) : ℚ :=
  ((modelBnoDailyDef P sel).getD i default).pay_base +
  ((modelBnoDailyDef P sel).getD i default).pay_evening_bonus +
  ((modelBnoDailyDef P sel).getD i default).pay_night_bonus +
  ((modelBnoDailyDef P sel).getD i default).pay_weekend_bonus +
  ((modelBnoDailyDef P sel).getD i default).pay_holiday_bonus +
  ((modelBnoDailyDef P sel).getD i default).travel_pay +
  ((modelBDef P sel).getD i default).pay_weekly_topup

/-! # Theorems -/

/-! ## C1: the daily overtime split -/

/-- Every row of `assignTravel` is a row of the input, with the travel
column possibly set. -/
theorem assignTravel_mem (P : Params) :
    ∀ (done : List ℤ) (l : List PaidRow) (r' : PaidRow),
      r' ∈ assignTravel P done l →
      ∃ r0 ∈ l, r' = r0 ∨ r' = { r0 with travel_pay := P.DAILY_TRAVEL } := by
  intro done l
  induction l generalizing done with
  | nil => intro r' h; simp [assignTravel] at h
  | cons r t ih =>
    intro r' h
    rw [assignTravel] at h
    by_cases hc : r.worked_day ∧ ¬ r.is_sick ∧ r.date ∉ done
    · rw [if_pos hc] at h
      rcases List.mem_cons.mp h with h0 | h0
      · exact ⟨r, List.mem_cons_self .., Or.inr h0⟩
      · obtain ⟨r0, hr0, he⟩ := ih _ _ h0
        exact ⟨r0, List.mem_cons_of_mem _ hr0, he⟩
    · rw [if_neg hc] at h
      rcases List.mem_cons.mp h with h0 | h0
      · exact ⟨r, List.mem_cons_self .., Or.inl h0⟩
      · obtain ⟨r0, hr0, he⟩ := ih _ _ h0
        exact ⟨r0, List.mem_cons_of_mem _ hr0, he⟩

/-- Every row of `add_pay_columns` is the column block of some input day,
with travel possibly credited and the daily total filled in. -/
theorem add_pay_columns_mem (P : Params) (daily : List DailyRow) (r' : PaidRow)
    (h : r' ∈ add_pay_columns P daily) :
    ∃ d ∈ daily,
      r' = setTotal (payColsRow P d) ∨
      r' = setTotal { payColsRow P d with travel_pay := P.DAILY_TRAVEL } := by
  rw [add_pay_columns] at h
  obtain ⟨r1, hr1, he⟩ := List.mem_map.mp h
  obtain ⟨r0, hr0, he0⟩ := assignTravel_mem P _ _ _ hr1
  obtain ⟨d, hd, hed⟩ := List.mem_map.mp hr0
  subst he
  rcases he0 with h0 | h0 <;> subst h0 <;> subst hed
  · exact ⟨d, hd, Or.inl rfl⟩
  · exact ⟨d, hd, Or.inr rfl⟩

/-- **C1.** For every row produced by `add_pay_columns`, under a
non-negative configuration of `DAILY_REGULAR_HOURS` and `DAILY_T1_HOURS`
and a non-negative `hours_total`, the daily overtime split satisfies
`hours_ot_t1 + hours_ot_t2 = max 0 (hours_total − DAILY_REGULAR_HOURS)`
and `hours_ot_t1 ≤ DAILY_T1_HOURS`. -/
theorem overtime_split_invariant (P : Params) (daily : List DailyRow) (r' : PaidRow)
    (hmem : r' ∈ add_pay_columns P daily)
    (_hreg : 0 ≤ P.DAILY_REGULAR_HOURS) (_hcap : 0 ≤ P.DAILY_T1_HOURS)
    (_hht : 0 ≤ r'.hours_total) :
    r'.hours_ot_t1 + r'.hours_ot_t2 =
      max 0 (r'.hours_total - P.DAILY_REGULAR_HOURS) ∧
    r'.hours_ot_t1 ≤ P.DAILY_T1_HOURS := by
  obtain ⟨d, -, hr⟩ := add_pay_columns_mem P daily r' hmem
  have hfields :
      r'.hours_total = (d.minutes_total : ℚ) / 60 ∧
      r'.hours_ot_t1 =
        min (max ((d.minutes_total : ℚ) / 60 - P.DAILY_REGULAR_HOURS) 0) P.DAILY_T1_HOURS ∧
      r'.hours_ot_t2 =
        max (max ((d.minutes_total : ℚ) / 60 - P.DAILY_REGULAR_HOURS) 0 -
          min (max ((d.minutes_total : ℚ) / 60 - P.DAILY_REGULAR_HOURS) 0) P.DAILY_T1_HOURS) 0 := by
    rcases hr with h | h <;> subst h <;>
      exact ⟨rfl, rfl, rfl⟩
  obtain ⟨h1, h2, h3⟩ := hfields
  set ht := (d.minutes_total : ℚ) / 60 with hht'
  set ov := max (ht - P.DAILY_REGULAR_HOURS) 0 with hov
  have ht1le : min ov P.DAILY_T1_HOURS ≤ ov := min_le_left _ _
  constructor
  · rw [h1, h2, h3]
    have : max (ov - min ov P.DAILY_T1_HOURS) 0 = ov - min ov P.DAILY_T1_HOURS :=
      max_eq_left (by linarith)
    rw [this, max_comm]
    ring
  · rw [h2]; exact min_le_right _ _

section
attribute [local semireducible] Rat.add Rat.mul Rat.sub Rat.inv

/-- C1 at a concrete input: the single-workday table, default parameters. -/
theorem overtime_split_invariant_witness :
    ((exPaid7.getD 0 default ∈ add_pay_columns defaultParams
        (compute_daily_rows defaultParams (okSel (load_attendance_from_csv exTable7)))) ∧
      0 ≤ defaultParams.DAILY_REGULAR_HOURS ∧ 0 ≤ defaultParams.DAILY_T1_HOURS ∧
      0 ≤ (exPaid7.getD 0 default).hours_total) ∧
    ((exPaid7.getD 0 default).hours_ot_t1 + (exPaid7.getD 0 default).hours_ot_t2 =
        max 0 ((exPaid7.getD 0 default).hours_total - defaultParams.DAILY_REGULAR_HOURS) ∧
      (exPaid7.getD 0 default).hours_ot_t1 ≤ defaultParams.DAILY_T1_HOURS) :=
  ⟨⟨by decide, by decide, by decide, by decide⟩,
    overtime_split_invariant defaultParams
      (compute_daily_rows defaultParams (okSel (load_attendance_from_csv exTable7)))
      (exPaid7.getD 0 default) (by decide) (by decide) (by decide) (by decide)⟩

end

/-! ## C5: monotonicity and boundary continuity of the income tax -/

/-- `Rat.floor` agrees with the floor of the `FloorRing` instance. -/
theorem ratFloor_eq (q : ℚ) : Rat.floor q = ⌊q⌋ := by
  rw [Rat.floor_def', Rat.floor_def]

/-- Two-decimal rounding is monotone. -/
theorem pyRound2_mono {x y : ℚ} (h : x ≤ y) : pyRound2 x ≤ pyRound2 y := by
  unfold pyRound2
  rw [ratFloor_eq, ratFloor_eq]
  have : (⌊100 * x + 1 / 2⌋ : ℤ) ≤ ⌊100 * y + 1 / 2⌋ := Int.floor_mono (by linarith)
  have hc : ((⌊100 * x + 1 / 2⌋ : ℤ) : ℚ) ≤ ((⌊100 * y + 1 / 2⌋ : ℤ) : ℚ) := by
    exact_mod_cast this
  linarith

/-- The clamped rounded accumulator is monotone. -/
theorem stop_mono {x y : ℚ} (h : x ≤ y) :
    max 0 (pyRound2 x) ≤ max 0 (pyRound2 y) :=
  max_le_max le_rfl (pyRound2_mono h)

/-- A cap chain from a previous cap yields a cap chain of the tail. -/
theorem capsChainB_to_capsOK {p : Option ℚ} {bs : List (Option ℚ × ℚ)}
    (h : capsChainB p bs = true) : capsOK bs = true := by
  cases bs with
  | nil => rfl
  | cons b rest =>
    obtain ⟨cap, r⟩ := b
    simp only [capsChainB, Bool.and_eq_true] at h
    simpa [capsOK] using h.2

/-- Along a valid chain, the bracket walk never returns less than the
clamped rounding of the accumulated tax. -/
theorem taxGo_ge (x : ℚ) :
    ∀ (bs : List (Option ℚ × ℚ)) (tax last : ℚ),
      capsChainB (some last) bs = true → ratesOK bs = true → last ≤ x →
      max 0 (pyRound2 tax) ≤ taxGo x bs tax last := by
  intro bs
  induction bs with
  | nil => intro tax last _ _ _; simp [taxGo]
  | cons b rest ih =>
    intro tax last hchain hrates hlx
    obtain ⟨cap, r⟩ := b
    simp only [ratesOK, List.all_cons, Bool.and_eq_true, decide_eq_true_eq] at hrates
    obtain ⟨hr, hrates'⟩ := hrates
    cases cap with
    | some c =>
      simp only [capsChainB, capLE, Bool.and_eq_true, decide_eq_true_eq] at hchain
      obtain ⟨hlc, hchain'⟩ := hchain
      rw [taxGo]
      by_cases hcx : c < x
      · rw [if_pos hcx]
        refine le_trans ?_ (ih _ c hchain' (by simpa [ratesOK] using hrates') (le_of_lt hcx))
        exact stop_mono (by nlinarith)
      · rw [if_neg hcx]
        exact stop_mono (by nlinarith)
    | none =>
      rw [taxGo]
      exact stop_mono (by nlinarith)

/-- Monotonicity of the bracket walk in the taxable amount. -/
theorem taxGo_mono {x y : ℚ} (hxy : x ≤ y) :
    ∀ (bs : List (Option ℚ × ℚ)) (tax last : ℚ),
      capsOK bs = true → ratesOK bs = true →
      taxGo x bs tax last ≤ taxGo y bs tax last := by
  intro bs
  induction bs with
  | nil => intro tax last _ _; simp [taxGo]
  | cons b rest ih =>
    intro tax last hcaps hrates
    obtain ⟨cap, r⟩ := b
    simp only [ratesOK, List.all_cons, Bool.and_eq_true, decide_eq_true_eq] at hrates
    obtain ⟨hr, hrates'⟩ := hrates
    have hrates'' : ratesOK rest = true := by simpa [ratesOK] using hrates'
    cases cap with
    | some c =>
      have hchain : capsChainB (some c) rest = true := by simpa [capsOK] using hcaps
      rw [taxGo, taxGo]
      by_cases hcx : c < x
      · rw [if_pos hcx, if_pos (lt_of_lt_of_le hcx hxy)]
        exact ih _ c (capsChainB_to_capsOK hchain) hrates''
      · rw [if_neg hcx]
        by_cases hcy : c < y
        · rw [if_pos hcy]
          refine le_trans ?_ (taxGo_ge y rest _ c hchain hrates'' (le_of_lt hcy))
          exact stop_mono (by nlinarith [not_lt.mp hcx])
        · rw [if_neg hcy]
          exact stop_mono (by nlinarith)
    | none =>
      rw [taxGo, taxGo]
      exact stop_mono (by nlinarith)

/-- Once the taxable amount equals the running previous cap, the strict
walk adds nothing further. -/
theorem taxGoStrict_stuck (x : ℚ) :
    ∀ (bs : List (Option ℚ × ℚ)) (tax : ℚ),
      capsChainB (some x) bs = true →
      taxGoStrict x bs tax x = max 0 (pyRound2 tax) := by
  intro bs
  induction bs with
  | nil => intro tax _; simp [taxGoStrict]
  | cons b rest ih =>
    intro tax hchain
    obtain ⟨cap, r⟩ := b
    cases cap with
    | some c =>
      simp only [capsChainB, capLE, Bool.and_eq_true, decide_eq_true_eq] at hchain
      obtain ⟨hxc, hchain'⟩ := hchain
      rw [taxGoStrict]
      by_cases hcx : c ≤ x
      · have hce : c = x := le_antisymm hcx hxc
        subst hce
        rw [if_pos le_rfl]
        rw [show tax + (c - c) * r = tax by ring]
        exact ih _ hchain'
      · rw [if_neg hcx]
        rw [show tax + (x - x) * r = tax by ring]
    | none =>
      rw [taxGoStrict]
      rw [show tax + (x - x) * r = tax by ring]

/-- The walk with the strict boundary comparison and the walk with the
non-strict one agree: the tax is continuous at every bracket cap. -/
theorem taxGo_eq_strict (x : ℚ) :
    ∀ (bs : List (Option ℚ × ℚ)) (tax last : ℚ),
      capsOK bs = true →
      taxGo x bs tax last = taxGoStrict x bs tax last := by
  intro bs
  induction bs with
  | nil => intro tax last _; rfl
  | cons b rest ih =>
    intro tax last hcaps
    obtain ⟨cap, r⟩ := b
    cases cap with
    | some c =>
      have hchain : capsChainB (some c) rest = true := by simpa [capsOK] using hcaps
      rw [taxGo, taxGoStrict]
      rcases lt_trichotomy c x with hlt | heq | hgt
      · rw [if_pos hlt, if_pos (le_of_lt hlt)]
        exact ih _ c (capsChainB_to_capsOK hchain)
      · subst heq
        rw [if_neg (lt_irrefl c), if_pos le_rfl]
        rw [taxGoStrict_stuck c rest _ hchain]
      · rw [if_neg (not_lt.mpr (le_of_lt hgt)), if_neg (not_le.mpr hgt)]
    | none => rfl

/-- **C5 (amended).** For every ordered bracket list with non-decreasing
caps, non-negative rates and an unbounded last cap,
`income_tax_before_credit` is monotonically non-decreasing over the
non-negative taxable amounts, and it agrees everywhere with the variant
that applies the next bracket's formula at each bracket cap — so there is
no jump at any bracket boundary. -/
theorem tax_mono_continuous (bs : List (Option ℚ × ℚ)) (x y : ℚ)
    (hcaps : capsOK bs = true) (hrates : ratesOK bs = true)
    (_hlast : lastUnbounded bs = true) (_hx : 0 ≤ x) (hxy : x ≤ y) :
    income_tax_before_credit bs x ≤ income_tax_before_credit bs y ∧
    income_tax_before_credit bs x = income_tax_next_bracket bs x :=
  ⟨taxGo_mono hxy bs 0 0 hcaps hrates, taxGo_eq_strict x bs 0 0 hcaps⟩

section
attribute [local semireducible] Rat.add Rat.mul Rat.sub Rat.inv

/-- C5 as frozen is false: a bracket list with non-decreasing caps and an
unbounded last cap (but a negative top rate) on which the tax strictly
decreases from taxable 1 to taxable 2. -/
theorem tax_mono_counterexample :
    capsOK [(some 1, 1), (none, -1)] = true ∧
    lastUnbounded [(some 1, 1), (none, -1)] = true ∧
    (0 : ℚ) ≤ 1 ∧ (1 : ℚ) ≤ 2 ∧
    income_tax_before_credit [(some 1, 1), (none, -1)] 2 <
      income_tax_before_credit [(some 1, 1), (none, -1)] 1 := by
  decide

/-- C5 (amended) at the default bracket table, taxable 10000 and 20000. -/
theorem tax_mono_continuous_witness :
    (capsOK defaultParams.TAX_BRACKETS = true ∧
      ratesOK defaultParams.TAX_BRACKETS = true ∧
      lastUnbounded defaultParams.TAX_BRACKETS = true ∧
      (0 : ℚ) ≤ 10000 ∧ (10000 : ℚ) ≤ 20000) ∧
    (income_tax_before_credit defaultParams.TAX_BRACKETS 10000 ≤
        income_tax_before_credit defaultParams.TAX_BRACKETS 20000 ∧
      income_tax_before_credit defaultParams.TAX_BRACKETS 10000 =
        income_tax_next_bracket defaultParams.TAX_BRACKETS 10000) :=
  ⟨⟨by decide, by decide, by decide, by decide, by decide⟩,
    tax_mono_continuous defaultParams.TAX_BRACKETS 10000 20000
      (by decide) (by decide) (by decide) (by decide) (by decide)⟩

end

/-! ## C9: missing required columns fail fast with a named error -/

/-- Forward filling preserves the number of rows. -/
theorem ffillCol_length (last : Option Str) :
    ∀ cells : List (Option Str), (ffillCol last cells).length = cells.length := by
  intro cells
  induction cells generalizing last with
  | nil => rfl
  | cons c t ih => simp [ffillCol, ih]

/-- **C9.** The attendance loader raises a validation error naming a
missing required column whenever one of the six required columns is
absent, before touching any row; when all six are present it does not
raise for that reason, and every input row is loaded. -/
theorem loader_missing_column (t : RawTable) :
    ((∃ c ∈ requiredCols, c ∉ t.cols) →
      ∃ c ∈ requiredCols, c ∉ t.cols ∧
        load_attendance_from_csv t = .error (txt "עמודה חסרה בקובץ: " ++ c)) ∧
    ((∀ c ∈ requiredCols, c ∈ t.cols) →
      ∃ rows, load_attendance_from_csv t = .ok rows ∧
        rows.length = t.rows.length) := by
  cases hf : requiredCols.find? (fun c => !(t.cols.contains c)) with
  | some c =>
    have hmem : c ∈ requiredCols := List.mem_of_find?_eq_some hf
    have hp := List.find?_some hf
    have hnot : c ∉ t.cols := by
      simp only [Bool.not_eq_true'] at hp
      intro hin
      have htrue : t.cols.contains c = true := List.elem_iff.mpr hin
      rw [hp] at htrue
      exact absurd htrue (by simp)
    constructor
    · intro _
      refine ⟨c, hmem, hnot, ?_⟩
      rw [load_attendance_from_csv, hf]
    · intro hall
      exact absurd (hall c hmem) hnot
  | none =>
    constructor
    · intro ⟨c, hmem, hnot⟩
      have hnp := List.find?_eq_none.mp hf c hmem
      simp only [Bool.not_eq_true', Bool.not_eq_false] at hnp
      exact absurd (List.elem_iff.mp hnp) hnot
    · intro _
      rw [load_attendance_from_csv, hf]
      refine ⟨_, rfl, ?_⟩
      rw [List.length_map, List.length_zip, List.length_zip,
        ffillCol_length, ffillCol_length, List.length_map, List.length_map]
      simp

/-- C9 at concrete inputs: a table missing five required columns errors,
the complete single-workday table loads. -/
theorem loader_missing_column_witness :
    ((∃ c ∈ requiredCols, c ∉ exTableMissing.cols) ∧
      (∀ c ∈ requiredCols, c ∈ exTable7.cols)) ∧
    ((∃ c ∈ requiredCols, c ∉ exTableMissing.cols ∧
        load_attendance_from_csv exTableMissing =
          .error (txt "עמודה חסרה בקובץ: " ++ c)) ∧
      (∃ rows, load_attendance_from_csv exTable7 = .ok rows ∧
        rows.length = exTable7.rows.length)) :=
  ⟨⟨by decide, by decide⟩,
    ⟨(loader_missing_column exTableMissing).1 (by decide),
      (loader_missing_column exTable7).2 (by decide)⟩⟩

/-! ## C10: placeholder dates are forward filled, not dropped -/

/-- The forward-filled cell at position `i` is the nearest preceding
explicit value, with the incoming accumulator as fallback. -/
theorem ffillCol_getD :
    ∀ (cells : List (Option Str)) (last : Option Str) (i : ℕ), i < cells.length →
      (ffillCol last cells).getD i none = (lastExplicit cells i).or last := by
  intro cells
  induction cells with
  | nil => intro last i h; simp at h
  | cons c t ih =>
    intro last i h
    cases i with
    | zero =>
      cases c with
      | none => simp [ffillCol, lastExplicit, List.findSome?]
      | some v => simp [ffillCol, lastExplicit, List.findSome?]
    | succ i =>
      have hlt : i < t.length := by simpa using h
      have hstep : lastExplicit (c :: t) (i + 1) = (lastExplicit t i).or c := by
        unfold lastExplicit
        rw [List.take_succ_cons, List.reverse_cons, List.findSome?_append]
        cases hle : (t.take (i + 1)).reverse.findSome? id with
        | some v => simp [Option.or]
        | none => cases c <;> simp [Option.or, List.findSome?]
      cases c with
      | none =>
        rw [show ffillCol last (none :: t) = last :: ffillCol last t from rfl]
        rw [List.getD_cons_succ, ih last i hlt, hstep]
        cases lastExplicit t i <;> simp [Option.or]
      | some v =>
        rw [show ffillCol last (some v :: t) = some v :: ffillCol (some v) t from rfl]
        rw [List.getD_cons_succ, ih (some v) i hlt, hstep]
        cases lastExplicit t i <;> simp [Option.or]

/-- Index-wise description of the loader's row construction. -/
theorem loader_zip_getD (f : RawRow × (Option Str × Option Str) → SelRow) :
    ∀ (rows : List RawRow) (ds dy : List (Option Str)) (i : ℕ),
      ds.length = rows.length → dy.length = rows.length → i < rows.length →
      ((rows.zip (ds.zip dy)).map f).getD i default =
        f (rows.getD i ⟨[]⟩, (ds.getD i none, dy.getD i none)) := by
  intro rows
  induction rows with
  | nil => intro ds dy i _ _ h; simp at h
  | cons r t ih =>
    intro ds dy i hds hdy hi
    cases ds with
    | nil => simp at hds
    | cons d ds2 =>
      cases dy with
      | nil => simp at hdy
      | cons y dy2 =>
        cases i with
        | zero => rfl
        | succ i =>
          have h1 : ds2.length = t.length := by simpa using hds
          have h2 : dy2.length = t.length := by simpa using hdy
          have h3 : i < t.length := by simpa using hi
          simpa using ih ds2 dy2 i h1 h2 h3

/-- **C10.** When all required columns are present, the loader drops no
row: a row whose date (or day-of-week) cell is empty or a placeholder gets
the nearest preceding explicit date by forward fill, rows before any
explicit date keep a missing date, and the daily-row builder skips any
row whose date is missing (its parse fails). -/
theorem loader_ffill (t : RawTable) (hreq : requiredPresent t = true) :
    (okSel (load_attendance_from_csv t)).length = t.rows.length ∧
    (∀ i, i < t.rows.length →
      ((okSel (load_attendance_from_csv t)).getD i default).date =
        lastExplicit (t.rows.map (fun r => cleanCell (getCell r (txt "תאריך")))) i) ∧
    (∀ (P : Params) (r : SelRow) (rest : List SelRow), r.date = none →
      dailyRowsCore P (r :: rest) = dailyRowsCore P rest) := by
  have hf : requiredCols.find? (fun c => !(t.cols.contains c)) = none := by
    rw [List.find?_eq_none]
    intro c hc
    have hcc := (List.all_eq_true.mp hreq) c hc
    simp only [hcc]
    simp
  have hok : load_attendance_from_csv t =
      .ok ((t.rows.zip
        ((ffillCol none (t.rows.map (fun r => cleanCell (getCell r (txt "תאריך"))))).zip
          (ffillCol none (t.rows.map (fun r => cleanCell (getCell r (txt "יום בשבוע"))))))).map
        (fun p =>
          { date := p.2.1
            dayOfWeek := p.2.2
            status := (getCell p.1 (txt "סטטוס/הערות")).getD []
            t_in := (getCell p.1 (txt "שעת כניסה")).getD []
            t_out := (getCell p.1 (txt "שעת יציאה")).getD [] })) := by
    rw [load_attendance_from_csv, hf]
  refine ⟨?_, ?_, ?_⟩
  · rw [hok]
    simp only [okSel]
    rw [List.length_map, List.length_zip, List.length_zip,
      ffillCol_length, ffillCol_length, List.length_map, List.length_map]
    simp
  · intro i hi
    rw [hok]
    simp only [okSel]
    rw [loader_zip_getD _ t.rows _ _ i
      (by rw [ffillCol_length, List.length_map])
      (by rw [ffillCol_length, List.length_map]) hi]
    show (ffillCol none (t.rows.map (fun r => cleanCell (getCell r (txt "תאריך"))))).getD i none =
      lastExplicit (t.rows.map (fun r => cleanCell (getCell r (txt "תאריך")))) i
    rw [ffillCol_getD _ none i (by rw [List.length_map]; exact hi)]
    cases lastExplicit (t.rows.map (fun r => cleanCell (getCell r (txt "תאריך")))) i <;>
      simp [Option.or]
  · intro P r rest h
    rw [dailyRowsCore, h]
    show (if is_no_att P (trimC r.status) then dailyRowsCore P rest
      else match parse_date none with
        | none => dailyRowsCore P rest
        | some date => dailyRowsCore P rest) = dailyRowsCore P rest
    split <;> rfl

/-- C10 at a concrete input: a split shift whose second segment carries a
placeholder date, preceded by a row with no explicit date at all. -/
theorem loader_ffill_witness :
    requiredPresent exTableSplit = true ∧
    ((okSel (load_attendance_from_csv exTableSplit)).length = exTableSplit.rows.length ∧
      (∀ i, i < exTableSplit.rows.length →
        ((okSel (load_attendance_from_csv exTableSplit)).getD i default).date =
          lastExplicit (exTableSplit.rows.map
            (fun r => cleanCell (getCell r (txt "תאריך")))) i) ∧
      (∀ (P : Params) (r : SelRow) (rest : List SelRow), r.date = none →
        dailyRowsCore P (r :: rest) = dailyRowsCore P rest)) :=
  ⟨by decide, loader_ffill exTableSplit (by decide)⟩

/-! ## C3: sick-run tiering -/

/-- A run scan over a concatenation splits at a broken gap: once the scan
reaches a date whose predecessor is more than one day back, it restarts
exactly like a fresh `build_pay_map`. -/
theorem payRunGo_split (base : ℚ) :
    ∀ (t : List ℤ) (x : List ℤ) (prev : ℤ) (k : ℕ),
      gapBreak ((prev :: t).getLast?) x.head? = true →
      payRunGo base k prev (t ++ x) = payRunGo base k prev t ++ build_pay_map base x := by
  intro t
  induction t with
  | nil =>
    intro x prev k hgap
    cases x with
    | nil => rfl
    | cons h x2 =>
      simp only [List.getLast?_singleton, List.head?_cons, gapBreak,
        decide_eq_true_eq] at hgap
      rw [List.nil_append]
      simp only [payRunGo, build_pay_map, if_neg hgap, List.nil_append]
  | cons d t2 ih =>
    intro x prev k hgap
    have hgap2 : gapBreak ((d :: t2).getLast?) x.head? = true := by
      rwa [show (prev :: d :: t2).getLast? = (d :: t2).getLast? from rfl] at hgap
    rw [List.cons_append]
    by_cases hd : d - prev = 1
    · simp only [payRunGo, if_pos hd, ih x d (k + 1) hgap2, List.cons_append]
    · simp only [payRunGo, if_neg hd, ih x d 1 hgap2, List.cons_append]

/-- `build_pay_map` distributes over a concatenation whose boundary gap is
not one day. -/
theorem build_pay_map_append (base : ℚ) (a x : List ℤ)
    (hgap : gapBreak a.getLast? x.head? = true) :
    build_pay_map base (a ++ x) = build_pay_map base a ++ build_pay_map base x := by
  cases a with
  | nil => rfl
  | cons d t =>
    rw [List.cons_append, build_pay_map, build_pay_map,
      payRunGo_split base t x d 1 hgap]
    rfl

/-- Scanning a run of consecutive dates starting one day after `prev`
assigns ranks `k+1, k+2, …` in order, and continues independently past a
broken gap. -/
theorem payRunGo_run (base : ℚ) :
    ∀ (run : List ℤ) (b : List ℤ) (prev : ℤ) (k : ℕ),
      chainOneB (prev :: run) = true →
      gapBreak ((prev :: run).getLast?) b.head? = true →
      payRunGo base k prev (run ++ b) =
        rankSeq base (k + 1) run ++ build_pay_map base b := by
  intro run
  induction run with
  | nil =>
    intro b prev k _ hgap
    rw [List.nil_append, show rankSeq base (k + 1) [] = [] from rfl, List.nil_append]
    have := payRunGo_split base [] b prev k hgap
    rwa [List.nil_append, show payRunGo base k prev [] = [] from rfl,
      List.nil_append] at this
  | cons d run2 ih =>
    intro b prev k hchain hgap
    simp only [chainOneB, Bool.and_eq_true, decide_eq_true_eq] at hchain
    have hd : d - prev = 1 := hchain.1
    have hchain2 : chainOneB (d :: run2) = true := hchain.2
    have hgap2 : gapBreak ((d :: run2).getLast?) b.head? = true := by
      rwa [show (prev :: d :: run2).getLast? = (d :: run2).getLast? from rfl] at hgap
    rw [List.cons_append]
    simp only [payRunGo, if_pos hd, ih b d (k + 1) hchain2 hgap2, rankSeq,
      List.cons_append]

/-- **C3.** The sick-pay allocator: for every maximal run of consecutive
sick calendar dates inside the sorted distinct sick-date list (one-day
gaps inside the run, a broken gap on both sides), the computed pay map
assigns, by rank within the run in date order, `base * pct(rank)` with
`pct = 0%, 50%, 50%, 100%, 100%, …`, where the base is the mean
`hours_total` over the worked rows (or the configured fallback when there
are none or averaging is disabled — `sickAvgHours`) times the hourly
rate. -/
theorem sick_run_tiering (P : Params) (df : List PaidRow) (sel : List SelRow)
    (a run b : List ℤ)
    (hds : sick_dates P sel = a ++ run ++ b) (hrun : run ≠ [])
    (hchain : chainOneB run = true)
    (hleft : gapBreak a.getLast? run.head? = true)
    (hright : gapBreak run.getLast? b.head? = true) :
    sickMap P df sel =
      build_pay_map (sickAvgHours P df * P.HOURLY_WAGE) a ++
      rankSeq (sickAvgHours P df * P.HOURLY_WAGE) 1 run ++
      build_pay_map (sickAvgHours P df * P.HOURLY_WAGE) b := by
  cases run with
  | nil => exact absurd rfl hrun
  | cons r0 rs =>
    rw [sickMap, hds]
    have hhead : ((r0 :: rs) ++ b).head? = some r0 := rfl
    have h1 : build_pay_map (sickAvgHours P df * P.HOURLY_WAGE) (a ++ ((r0 :: rs) ++ b)) =
        build_pay_map (sickAvgHours P df * P.HOURLY_WAGE) a ++
        build_pay_map (sickAvgHours P df * P.HOURLY_WAGE) ((r0 :: rs) ++ b) := by
      apply build_pay_map_append
      rwa [hhead]
    rw [List.append_assoc, h1]
    have h2 : build_pay_map (sickAvgHours P df * P.HOURLY_WAGE) ((r0 :: rs) ++ b) =
        rankSeq (sickAvgHours P df * P.HOURLY_WAGE) 1 (r0 :: rs) ++
        build_pay_map (sickAvgHours P df * P.HOURLY_WAGE) b := by
      rw [List.cons_append, build_pay_map]
      rw [payRunGo_run (sickAvgHours P df * P.HOURLY_WAGE) rs b r0 1 hchain hright]
      rfl
    rw [h2, List.append_assoc]

section
attribute [local semireducible] Rat.add Rat.mul Rat.sub Rat.inv

/-- C3 at a concrete input: five consecutive sick dates form a single
maximal run, getting ranks 1..5 and hence the 0%, 50%, 50%, 100%, 100%
tiers. -/
theorem sick_run_tiering_witness :
    (sick_dates defaultParams (okSel (load_attendance_from_csv exTableSick)) =
        [] ++ [20367, 20368, 20369, 20370, 20371] ++ [] ∧
      ([20367, 20368, 20369, 20370, 20371] : List ℤ) ≠ [] ∧
      chainOneB [20367, 20368, 20369, 20370, 20371] = true ∧
      gapBreak ([] : List ℤ).getLast? ([20367, 20368, 20369, 20370, 20371] : List ℤ).head? = true ∧
      gapBreak ([20367, 20368, 20369, 20370, 20371] : List ℤ).getLast? ([] : List ℤ).head? = true) ∧
    sickMap defaultParams [] (okSel (load_attendance_from_csv exTableSick)) =
      build_pay_map (sickAvgHours defaultParams [] * defaultParams.HOURLY_WAGE) [] ++
      rankSeq (sickAvgHours defaultParams [] * defaultParams.HOURLY_WAGE) 1
        [20367, 20368, 20369, 20370, 20371] ++
      build_pay_map (sickAvgHours defaultParams [] * defaultParams.HOURLY_WAGE) [] :=
  ⟨⟨by decide, by decide, by decide, by decide, by decide⟩,
    sick_run_tiering defaultParams [] (okSel (load_attendance_from_csv exTableSick))
      [] [20367, 20368, 20369, 20370, 20371] []
      (by decide) (by decide) (by decide) (by decide) (by decide)⟩

end

/-! ## C8: the travel allowance is credited once per date -/

/-- `getD` through `map`, for in-range indices and arbitrary defaults. -/
theorem getD_map_of_lt {α β : Type} (f : α → β) :
    ∀ (l : List α) (i : ℕ) (d : α) (d2 : β), i < l.length →
      (l.map f).getD i d2 = f (l.getD i d) := by
  intro l
  induction l with
  | nil => intro i d d2 h; simp at h
  | cons a t ih =>
    intro i d d2 h
    cases i with
    | zero => rfl
    | succ i => exact ih i d d2 (by simpa using h)

/-- `assignTravel` preserves the number of rows. -/
theorem assignTravel_length (P : Params) :
    ∀ (done : List ℤ) (l : List PaidRow),
      (assignTravel P done l).length = l.length := by
  intro done l
  induction l generalizing done with
  | nil => rfl
  | cons r t ih =>
    rw [assignTravel]
    by_cases h : r.worked_day ∧ ¬ r.is_sick ∧ r.date ∉ done
    · rw [if_pos h]; simp [ih]
    · rw [if_neg h]; simp [ih]

/-- The qualifying-index search shifted by an offset. -/
theorem firstQualIdxPGo_shift (dt : ℤ) :
    ∀ (l : List PaidRow) (n : ℕ),
      firstQualIdxPGo dt l n = (firstQualIdxPGo dt l 0).map (· + n) := by
  intro l
  induction l with
  | nil => intro n; rfl
  | cons r t ih =>
    intro n
    rw [firstQualIdxPGo, firstQualIdxPGo]
    by_cases h : r.date = dt ∧ r.worked_day ∧ ¬ r.is_sick
    · rw [if_pos h, if_pos h]
      simp
    · rw [if_neg h, if_neg h, ih (n + 1), ih 1, Option.map_map]
      cases firstQualIdxPGo dt t 0 with
      | none => rfl
      | some j => simp [Function.comp]; omega

/-- The travel scan, row by row: a row is credited the flat travel amount
exactly when it is worked, non-sick, its date is not yet credited, and it
is the first such row of its date; all other rows pass unchanged. -/
theorem assignTravel_getD (P : Params) :
    ∀ (l : List PaidRow) (done : List ℤ) (i : ℕ), i < l.length →
      (assignTravel P done l).getD i default =
        (if (l.getD i default).date ∉ done ∧
            firstQualIdxP l ((l.getD i default).date) = some i
         then { l.getD i default with travel_pay := P.DAILY_TRAVEL }
         else l.getD i default) := by
  intro l
  induction l with
  | nil => intro done i h; simp at h
  | cons r t ih =>
    intro done i hi
    rw [assignTravel]
    by_cases hbr : r.worked_day ∧ ¬ r.is_sick ∧ r.date ∉ done
    · rw [if_pos hbr]
      cases i with
      | zero =>
        have hfq : firstQualIdxP (r :: t) ((r :: t).getD 0 default).date = some 0 := by
          rw [firstQualIdxP, firstQualIdxPGo,
            if_pos ⟨rfl, hbr.1, hbr.2.1⟩]
        rw [List.getD_cons_zero, List.getD_cons_zero]
        rw [if_pos ⟨hbr.2.2, hfq⟩]
      | succ i =>
        have hit : i < t.length := by simpa using hi
        rw [List.getD_cons_succ, List.getD_cons_succ, ih (r.date :: done) i hit]
        by_cases hdt : (t.getD i default).date = r.date
        · have hdone : (t.getD i default).date ∈ r.date :: done := by
            rw [hdt]; exact List.mem_cons_self _ _
          rw [if_neg (fun hc => hc.1 hdone)]
          have hfq : firstQualIdxP (r :: t) ((t.getD i default).date) = some 0 := by
            rw [firstQualIdxP, firstQualIdxPGo, if_pos ⟨hdt.symm, hbr.1, hbr.2.1⟩]
          rw [if_neg (fun hc => by
            rw [hfq] at hc
            exact absurd hc.2 (by simp))]
        · have hmem : ((t.getD i default).date ∉ r.date :: done) ↔
              ((t.getD i default).date ∉ done) := by
            constructor
            · intro h hm
              exact h (List.mem_cons_of_mem _ hm)
            · intro h hm
              rcases List.mem_cons.mp hm with he | hm2
              · exact hdt he
              · exact h hm2
          have hfq : firstQualIdxP (r :: t) ((t.getD i default).date) =
              (firstQualIdxP t ((t.getD i default).date)).map (· + 1) := by
            rw [firstQualIdxP, firstQualIdxPGo,
              if_neg (fun hc => hdt (hc.1.symm)), firstQualIdxPGo_shift]
            rfl
          have hshift : firstQualIdxP (r :: t) ((t.getD i default).date) = some (i + 1) ↔
              firstQualIdxP t ((t.getD i default).date) = some i := by
            rw [hfq]
            cases hj : firstQualIdxP t ((t.getD i default).date) with
            | none => simp
            | some j =>
              simp only [Option.map_some', Option.some.injEq]
              omega
          by_cases hcond : (t.getD i default).date ∉ r.date :: done ∧
              firstQualIdxP t ((t.getD i default).date) = some i
          · rw [if_pos hcond, if_pos ⟨hmem.mp hcond.1, hshift.mpr hcond.2⟩]
          · rw [if_neg hcond, if_neg (fun hc => hcond ⟨hmem.mpr hc.1, hshift.mp hc.2⟩)]
    · rw [if_neg hbr]
      cases i with
      | zero =>
        rw [List.getD_cons_zero, List.getD_cons_zero]
        by_cases hq : r.date = r.date ∧ r.worked_day ∧ ¬ r.is_sick
        · -- the head qualifies, so its date must already be credited
          have hdone : r.date ∈ done := by
            by_contra hnd
            exact hbr ⟨hq.2.1, hq.2.2, hnd⟩
          rw [if_neg (fun hc => hc.1 hdone)]
        · have hfq : firstQualIdxP (r :: t) r.date =
              (firstQualIdxP t r.date).map (· + 1) := by
            rw [firstQualIdxP, firstQualIdxPGo, if_neg hq, firstQualIdxPGo_shift]
            rfl
          rw [if_neg (fun hc => by
            rw [hfq] at hc
            cases hj : firstQualIdxP t r.date with
            | none => rw [hj] at hc; exact absurd hc.2 (by simp)
            | some j =>
              rw [hj] at hc
              have : j + 1 = 0 := by simpa using hc.2
              omega)]
      | succ i =>
        have hit : i < t.length := by simpa using hi
        rw [List.getD_cons_succ, List.getD_cons_succ, ih done i hit]
        by_cases hq : r.date = (t.getD i default).date ∧ r.worked_day ∧ ¬ r.is_sick
        · -- the head is an earlier qualifying segment of the same date
          have hdone : (t.getD i default).date ∈ done := by
            by_contra hnd
            exact hbr ⟨hq.2.1, hq.2.2, fun hm => hnd (hq.1 ▸ hm)⟩
          rw [if_neg (fun hc => hc.1 hdone), if_neg (fun hc => hc.1 hdone)]
        · have hfq : firstQualIdxP (r :: t) ((t.getD i default).date) =
              (firstQualIdxP t ((t.getD i default).date)).map (· + 1) := by
            rw [firstQualIdxP, firstQualIdxPGo, if_neg hq, firstQualIdxPGo_shift]
            rfl
          have hshift : firstQualIdxP (r :: t) ((t.getD i default).date) = some (i + 1) ↔
              firstQualIdxP t ((t.getD i default).date) = some i := by
            rw [hfq]
            cases hj : firstQualIdxP t ((t.getD i default).date) with
            | none => simp
            | some j =>
              simp only [Option.map_some', Option.some.injEq]
              omega
          by_cases hcond : (t.getD i default).date ∉ done ∧
              firstQualIdxP t ((t.getD i default).date) = some i
          · rw [if_pos hcond, if_pos ⟨hcond.1, hshift.mpr hcond.2⟩]
          · rw [if_neg hcond, if_neg (fun hc => hcond ⟨hc.1, hshift.mp hc.2⟩)]

/-- The paid-row qualifying search agrees with the daily-row one through
the pay-column construction. -/
theorem firstQualIdxP_map (P : Params) (dt : ℤ) :
    ∀ (daily : List DailyRow) (n : ℕ),
      firstQualIdxPGo dt (daily.map (payColsRow P)) n = firstWorkedIdxGo dt daily n := by
  intro daily
  induction daily with
  | nil => intro n; rfl
  | cons d t ih =>
    intro n
    rw [List.map_cons, firstQualIdxPGo, firstWorkedIdxGo]
    by_cases h : d.date = dt ∧ d.worked_day ∧ ¬ d.is_sick
    · rw [if_pos h, if_pos]
      exact h
    · rw [if_neg h, if_neg]
      · exact ih (n + 1)
      · exact h

/-- **C8.** In the paid-day table the flat travel allowance is credited
exactly once per calendar date — on the first worked-and-non-sick segment
of that date — and every other segment, including every segment of a date
with no worked non-sick segment, gets zero. -/
theorem travel_once_per_date (P : Params) (daily : List DailyRow) (i : ℕ)
    (hi : i < daily.length) :
    ((add_pay_columns P daily).getD i default).travel_pay =
      (if firstWorkedIdx daily ((daily.getD i default).date) = some i
       then P.DAILY_TRAVEL else 0) := by
  have hlen : i < (daily.map (payColsRow P)).length := by simpa using hi
  have hlen2 : i < (assignTravel P [] (daily.map (payColsRow P))).length := by
    rw [assignTravel_length]; exact hlen
  rw [add_pay_columns, getD_map_of_lt setTotal _ i default default hlen2]
  rw [show (setTotal ((assignTravel P [] (daily.map (payColsRow P))).getD i default)).travel_pay =
    ((assignTravel P [] (daily.map (payColsRow P))).getD i default).travel_pay from rfl]
  rw [assignTravel_getD P _ [] i hlen]
  have hdt : ((daily.map (payColsRow P)).getD i default).date =
      (daily.getD i default).date := by
    rw [getD_map_of_lt (payColsRow P) _ i default default hi]
    rfl
  have hfq : firstQualIdxP (daily.map (payColsRow P))
      (((daily.map (payColsRow P)).getD i default).date) =
      firstWorkedIdx daily ((daily.getD i default).date) := by
    rw [hdt, firstQualIdxP, firstWorkedIdx, firstQualIdxP_map]
  by_cases hc : firstWorkedIdx daily ((daily.getD i default).date) = some i
  · rw [if_pos ⟨by simp, by rw [hfq]; exact hc⟩, if_pos hc]
  · rw [if_neg (fun hx => hc (by rw [← hfq]; exact hx.2)), if_neg hc]
    rw [getD_map_of_lt (payColsRow P) _ i default default hi]
    rfl

section
attribute [local semireducible] Rat.add Rat.mul Rat.sub Rat.inv

/-- C8 at a concrete input: the single-workday table, row 0. -/
theorem travel_once_per_date_witness :
    0 < (compute_daily_rows defaultParams (okSel (load_attendance_from_csv exTable7))).length ∧
    ((add_pay_columns defaultParams
        (compute_daily_rows defaultParams (okSel (load_attendance_from_csv exTable7)))).getD
        0 default).travel_pay =
      (if firstWorkedIdx
          (compute_daily_rows defaultParams (okSel (load_attendance_from_csv exTable7)))
          ((compute_daily_rows defaultParams
            (okSel (load_attendance_from_csv exTable7))).getD 0 default).date = some 0
       then defaultParams.DAILY_TRAVEL else 0) :=
  ⟨by decide,
    travel_once_per_date defaultParams
      (compute_daily_rows defaultParams (okSel (load_attendance_from_csv exTable7)))
      0 (by decide)⟩

end

/-! ## C4: the frame effect of the sick-pay allocator -/

/-- Dates listed by the run scan are exactly the scanned dates. -/
theorem payRunGo_fsts (base : ℚ) :
    ∀ (t : List ℤ) (prev : ℤ) (k : ℕ),
      (payRunGo base k prev t).map Prod.fst = t := by
  intro t
  induction t with
  | nil => intro prev k; rfl
  | cons d t2 ih =>
    intro prev k
    rw [payRunGo]
    by_cases hd : d - prev = 1
    · rw [if_pos hd, List.map_cons, ih]
    · rw [if_neg hd, List.map_cons, ih]

/-- Dates of the pay map are exactly the sick dates it was built from. -/
theorem build_pay_map_fsts (base : ℚ) :
    ∀ ds : List ℤ, (build_pay_map base ds).map Prod.fst = ds := by
  intro ds
  cases ds with
  | nil => rfl
  | cons d t => rw [build_pay_map, List.map_cons, payRunGo_fsts]

/-- The sick-date list is duplicate free. -/
theorem sick_dates_nodup (P : Params) (sel : List SelRow) :
    (sick_dates P sel).Nodup := by
  rw [sick_dates]
  exact (List.perm_insertionSort _ _).nodup_iff.mpr (List.nodup_dedup _)

/-- A date outside the map looks up to nothing. -/
theorem mapLookup_eq_none {m : List (ℤ × ℚ)} {d : ℤ}
    (h : d ∉ m.map Prod.fst) : mapLookup m d = none := by
  rw [mapLookup]
  rw [List.find?_eq_none.mpr]
  · rfl
  · intro x hx hpx
    simp only [decide_eq_true_eq] at hpx
    exact h (hpx ▸ List.mem_map_of_mem Prod.fst hx)

/-- Zeroing has no effect on the date column. -/
theorem zeroWorkCols_date (r : PaidRow) (p : ℚ) : (zeroWorkCols r p).date = r.date := rfl

/-- The fold of `add_sick_pay` over a duplicate-free pay map: every row of
the incoming table is updated through `sickUpd`, and the dates absent from
the table are appended as synthesised rows, in map order. -/
theorem sickFold_spec :
    ∀ (m : List (ℤ × ℚ)) (acc : List PaidRow), (m.map Prod.fst).Nodup →
      m.foldl sickStep acc =
        acc.map (sickUpd m) ++
          (m.filter (fun dp => ¬ acc.any (fun r => r.date = dp.1))).map
            (fun dp => newSickRow dp.1 dp.2) := by
  intro m
  induction m with
  | nil =>
    intro acc _
    rw [List.foldl_nil, List.filter_nil, List.map_nil, List.append_nil]
    have hid : acc.map (sickUpd []) = acc.map id := by
      apply List.map_congr_left
      intro r _
      rfl
    rw [hid, List.map_id]
  | cons dp m2 ih =>
    intro acc hnd
    obtain ⟨d, p⟩ := dp
    rw [List.map_cons, List.nodup_cons] at hnd
    obtain ⟨hdnin, hnd2⟩ := hnd
    rw [List.foldl_cons]
    by_cases hin : acc.any (fun r => r.date = d)
    · -- update in place
      have hstep : sickStep acc (d, p) =
          acc.map (fun r => if r.date = d then zeroWorkCols r p else r) := by
        rw [sickStep, if_pos hin]
      rw [hstep, ih _ hnd2, List.map_map]
      have hm1 : acc.map (sickUpd m2 ∘ fun r => if r.date = d then zeroWorkCols r p else r) =
          acc.map (sickUpd ((d, p) :: m2)) := by
        apply List.map_congr_left
        intro r _
        show sickUpd m2 (if r.date = d then zeroWorkCols r p else r) = _
        by_cases hrd : r.date = d
        · rw [if_pos hrd, sickUpd, zeroWorkCols_date, hrd,
            mapLookup_eq_none hdnin, sickUpd]
          rw [show mapLookup ((d, p) :: m2) r.date = some p by
            rw [mapLookup, List.find?_cons_of_pos _ (by simp [hrd])]
            rfl]
        · rw [if_neg hrd, sickUpd, sickUpd]
          rw [show mapLookup ((d, p) :: m2) r.date = mapLookup m2 r.date by
            rw [mapLookup, mapLookup, List.find?_cons_of_neg _ (by
              intro h
              exact hrd ((by simpa using h : d = r.date)).symm)]]
      have hupdd : ∀ r : PaidRow,
          ((if r.date = d then zeroWorkCols r p else r)).date = r.date := by
        intro r
        split
        · rfl
        · rfl
      have hm2 : (m2.filter (fun dp2 =>
            ¬ (acc.map (fun r => if r.date = d then zeroWorkCols r p else r)).any
              (fun r => r.date = dp2.1))) =
          m2.filter (fun dp2 => ¬ acc.any (fun r => r.date = dp2.1)) := by
        apply List.filter_congr
        intro dp2 _
        have hiff : ((acc.map (fun r => if r.date = d then zeroWorkCols r p else r)).any
              (fun r => r.date = dp2.1)) = (acc.any fun r => r.date = dp2.1) := by
          rw [Bool.eq_iff_iff, List.any_eq_true, List.any_eq_true]
          constructor
          · rintro ⟨r, hr, hq⟩
            obtain ⟨r0, hr0, he⟩ := List.mem_map.mp hr
            refine ⟨r0, hr0, ?_⟩
            rw [← he, hupdd r0] at hq
            exact hq
          · rintro ⟨r0, hr0, hq⟩
            refine ⟨_, List.mem_map_of_mem _ hr0, ?_⟩
            rw [hupdd r0]
            exact hq
        simp only [hiff]
      have hm3 : ((d, p) :: m2).filter (fun dp2 => ¬ acc.any (fun r => r.date = dp2.1)) =
          m2.filter (fun dp2 => ¬ acc.any (fun r => r.date = dp2.1)) := by
        rw [List.filter_cons_of_neg]
        simp [hin]
      rw [hm1, hm2, hm3]
    · -- append the synthesised row
      have hstep : sickStep acc (d, p) = acc ++ [newSickRow d p] := by
        rw [sickStep, if_neg hin]
      rw [hstep, ih _ hnd2, List.map_append]
      have hnew : (newSickRow d p).date = d := rfl
      have hm1 : acc.map (sickUpd m2) = acc.map (sickUpd ((d, p) :: m2)) := by
        apply List.map_congr_left
        intro r hr
        have hrd : ¬ r.date = d := by
          intro he
          exact hin (List.any_eq_true.mpr ⟨r, hr, by simp [he]⟩)
        rw [sickUpd, sickUpd]
        rw [show mapLookup ((d, p) :: m2) r.date = mapLookup m2 r.date by
          rw [mapLookup, mapLookup, List.find?_cons_of_neg _ (by
            intro h
            exact hrd ((by simpa using h : d = r.date)).symm)]]
      have hm2 : [newSickRow d p].map (sickUpd m2) = [newSickRow d p] := by
        rw [List.map_singleton, sickUpd, hnew, mapLookup_eq_none hdnin]
      have hm3 : (m2.filter (fun dp2 =>
            ¬ (acc ++ [newSickRow d p]).any (fun r => r.date = dp2.1))) =
          m2.filter (fun dp2 => ¬ acc.any (fun r => r.date = dp2.1)) := by
        apply List.filter_congr
        intro dp2 hdp2
        have hne : ¬ d = dp2.1 := by
          intro he
          have hmm : dp2.1 ∈ m2.map Prod.fst := List.mem_map_of_mem Prod.fst hdp2
          rw [← he] at hmm
          exact hdnin hmm
        congr 1
        rw [List.any_append]
        simp [hnew, hne]
      have hm4 : ((d, p) :: m2).filter (fun dp2 => ¬ acc.any (fun r => r.date = dp2.1)) =
          (d, p) :: m2.filter (fun dp2 => ¬ acc.any (fun r => r.date = dp2.1)) := by
        rw [List.filter_cons_of_pos]
        simp [hin]
      rw [hm1, hm2, hm3, hm4, List.map_cons]
      rw [List.append_assoc]
      rfl

/-- Zeroing after initialising `pay_sick` is plain zeroing. -/
theorem zeroWorkCols_setPaySick (r : PaidRow) (p : ℚ) :
    zeroWorkCols { r with pay_sick := 0 } p = zeroWorkCols r p := rfl

/-- **C4.** `add_sick_pay` performs exactly the specified frame update: up
to the final date sort, the output consists of every input row — those of
a sick date with their work-derived pay columns and weekly-topup columns
zeroed and `pay_sick` set to the tier amount, every other row unchanged
apart from the fresh `pay_sick = 0` column — plus one synthesised all-zero
row carrying the tier amount for each sick date absent from the table. -/
theorem sick_pay_frame (P : Params) (df : List PaidRow) (sel : List SelRow) :
    List.Perm (add_sick_pay P df sel)
      (df.map (sickAdjust (sickMap P df sel)) ++
        ((sickMap P df sel).filter
          (fun dp => ¬ df.any (fun r => r.date = dp.1))).map
          (fun dp => newSickRow dp.1 dp.2)) := by
  have hnd : ((sickMap P df sel).map Prod.fst).Nodup := by
    rw [sickMap, build_pay_map_fsts]
    exact sick_dates_nodup P sel
  by_cases hds : sick_dates P sel = []
  · rw [add_sick_pay, if_pos hds]
    have hm : sickMap P df sel = [] := by
      rw [sickMap, hds]
      rfl
    rw [hm, List.filter_nil, List.map_nil, List.append_nil]
    apply List.Perm.of_eq
    apply List.map_congr_left
    intro r _
    rw [sickAdjust, mapLookup_eq_none (by simp)]
  · rw [add_sick_pay, if_neg hds]
    refine (List.perm_insertionSort pDateLE _).trans (List.Perm.of_eq ?_)
    rw [sickFold_spec _ _ hnd, List.map_map]
    have h1 : df.map (sickUpd (sickMap P df sel) ∘ fun r => { r with pay_sick := 0 }) =
        df.map (sickAdjust (sickMap P df sel)) := by
      apply List.map_congr_left
      intro r _
      rfl
    have h2 : (sickMap P df sel).filter (fun dp =>
          ¬ (df.map (fun r => { r with pay_sick := 0 })).any (fun r => r.date = dp.1)) =
        (sickMap P df sel).filter (fun dp => ¬ df.any (fun r => r.date = dp.1)) := by
      apply List.filter_congr
      intro dp _
      congr 1
      rw [List.any_map]
      rfl
    rw [h1, h2]

/-! ## C7: the concrete single-workday scenario -/

section
attribute [local semireducible] Rat.add Rat.mul Rat.sub Rat.inv

/-- The single-workday scenario refutes the claimed total: the listed
component values do hold, but `pay_total_day` is not 704.5 — the 09:00 to
19:00 interval overlaps the 16:00 to 24:00 evening window for 3 hours, so
an evening bonus accrues on top of the listed components. -/
theorem scenario_single_day_counterexample :
    (okRows (process defaultParams .DailyWeeklyMax exTable7)).map
        (fun r => (r.hours_ot_t1, r.hours_ot_t2, r.pay_base, r.pay_overtime_t1,
          r.travel_pay)) =
      [((2 : ℚ), (0 : ℚ), (650 : ℚ), (65/2 : ℚ), (22 : ℚ))] ∧
    (okRows (process defaultParams .DailyWeeklyMax exTable7)).map
        (fun r => r.pay_total_day) ≠ [(1409/2 : ℚ)] :=
  ⟨by decide, by decide⟩

set_option maxHeartbeats 2000000 in
/-- **C7.** The amended scenario: hourly rate 65, one workday 09:00 to
19:00, default parameters. The engine yields `hours_ot_t1 = 2`,
`hours_ot_t2 = 0`, `pay_base = 650`, `pay_overtime_t1 = 32.5`,
`travel_pay = 22`, an evening bonus of `3 × 65 × 0.2 = 39` for the 16:00
to 19:00 overlap with the evening window, and hence
`pay_total_day = 743.5`, not 704.5. -/
theorem scenario_single_day :
    (okRows (process defaultParams .DailyWeeklyMax exTable7)).map
        (fun r => (r.hours_ot_t1, r.hours_ot_t2, r.pay_base, r.pay_overtime_t1,
          r.travel_pay)) =
      [((2 : ℚ), (0 : ℚ), (650 : ℚ), (65/2 : ℚ), (22 : ℚ))] ∧
    (okRows (process defaultParams .DailyWeeklyMax exTable7)).map
        (fun r => (r.pay_evening_bonus, r.pay_total_day)) =
      [((39 : ℚ), (1487/2 : ℚ))] :=
  ⟨by decide, by decide⟩

end

/-! ## C6: the credit subtraction and the net chain -/

/-- A rational worth an integer number of cents. -/
theorem twoDp_ratio (n : ℤ) : TwoDp ((n : ℚ) / 100) := by
  unfold TwoDp
  rw [mul_div_cancel₀ _ (by norm_num : (100 : ℚ) ≠ 0)]
  exact Rat.den_intCast n

/-- Two-decimal rounding lands on an integer number of cents. -/
theorem pyRound2_twoDp (q : ℚ) : TwoDp (pyRound2 q) := twoDp_ratio _

/-- Clamping at zero keeps two-decimal values two-decimal. -/
theorem twoDp_max0 {q : ℚ} (h : TwoDp q) : TwoDp (max 0 q) := by
  rcases max_choice 0 q with hm | hm
  · rw [hm]
    unfold TwoDp
    norm_num
  · rw [hm]
    exact h

/-- A difference of two-decimal values is two-decimal. -/
theorem twoDp_sub {a b : ℚ} (ha : TwoDp a) (hb : TwoDp b) : TwoDp (a - b) := by
  unfold TwoDp at *
  have h1 : ((100 * a).num : ℚ) = 100 * a := by
    exact_mod_cast (Rat.den_eq_one_iff _).mp ha
  have h2 : ((100 * b).num : ℚ) = 100 * b := by
    exact_mod_cast (Rat.den_eq_one_iff _).mp hb
  have h3 : 100 * (a - b) = (((100 * a).num - (100 * b).num : ℤ) : ℚ) := by
    push_cast
    rw [h1, h2]
    ring
  rw [h3]
  exact Rat.den_intCast _

/-- Two-decimal rounding fixes every two-decimal value. -/
theorem pyRound2_twoDp_fix {q : ℚ} (h : TwoDp q) : pyRound2 q = q := by
  have h1 : ((100 * q).num : ℚ) = 100 * q := by
    exact_mod_cast (Rat.den_eq_one_iff _).mp h
  unfold pyRound2
  rw [ratFloor_eq, ← h1]
  have h2 : ⌊((100 * q).num : ℚ) + 1 / 2⌋ = (100 * q).num := by
    rw [Int.floor_eq_iff]
    constructor
    · norm_num
    · norm_num
  rw [h2, h1]
  field_simp

/-- Every value of the bracket walk is a rounded, clamped amount, hence
two-decimal. -/
theorem taxGo_twoDp (x : ℚ) :
    ∀ (bs : List (Option ℚ × ℚ)) (tax last : ℚ), TwoDp (taxGo x bs tax last) := by
  intro bs
  induction bs with
  | nil => intro tax last; exact twoDp_max0 (pyRound2_twoDp _)
  | cons b rest ih =>
    intro tax last
    obtain ⟨cap, r⟩ := b
    cases cap with
    | some c =>
      simp only [taxGo]
      split
      · exact ih _ _
      · exact twoDp_max0 (pyRound2_twoDp _)
    | none => exact twoDp_max0 (pyRound2_twoDp _)

/-- On the two-decimal tax amount the credit step is an exact clamped
subtraction whenever the credit amount itself is two-decimal. -/
theorem apply_credit_eq (P : Params) (x : ℚ)
    (h : TwoDp (P.CREDIT_POINTS * P.CREDIT_POINT_VALUE)) :
    apply_credit_points P (income_tax_before_credit P.TAX_BRACKETS x) =
      max 0 (income_tax_before_credit P.TAX_BRACKETS x -
        P.CREDIT_POINTS * P.CREDIT_POINT_VALUE) := by
  rw [apply_credit_points, income_tax_before_credit,
    pyRound2_twoDp_fix (twoDp_sub (taxGo_twoDp x P.TAX_BRACKETS 0 0) h)]

/-- The deduction chain of a successful run, read off the result record:
tax before credit comes from the bracket walk on the monthly gross, tax
after credit from the credit step, and net from the subtraction chain. -/
theorem process_fields (P : Params) (basis : OTBasis) (t : RawTable)
    (R : ProcResult) (hR : process P basis t = .ok R) :
    R.tax_before = income_tax_before_credit P.TAX_BRACKETS R.monthly_gross_taxable ∧
    R.tax_after = apply_credit_points P R.tax_before ∧
    R.net = R.monthly_gross_taxable -
      (R.employee_pension + R.ni + R.health + R.tax_after) := by
  cases hl : load_attendance_from_csv t with
  | error e =>
    unfold process at hR
    rw [hl] at hR
    exact Except.noConfusion hR
  | ok sel =>
    unfold process at hR
    rw [hl] at hR
    have h := Except.ok.inj hR
    rw [← h]
    exact ⟨rfl, rfl, rfl⟩

/-- **C6.** For every computed month (any parameters, overtime basis and
input table), provided the credit amount `CREDIT_POINTS ×
CREDIT_POINT_VALUE` is a whole number of cents, tax after credit equals
`max(0, tax_before − CREDIT_POINTS × CREDIT_POINT_VALUE)`, and net pay
equals the monthly gross taxable amount minus the sum of the employee
pension contribution, the social-insurance levy, the health levy and tax
after credit. -/
theorem credit_and_net (P : Params) (basis : OTBasis) (t : RawTable)
    (h : TwoDp (P.CREDIT_POINTS * P.CREDIT_POINT_VALUE)) :
    OnOk (process P basis t) (fun R =>
      R.tax_after = max 0 (R.tax_before -
        P.CREDIT_POINTS * P.CREDIT_POINT_VALUE) ∧
      R.net = R.monthly_gross_taxable -
        (R.employee_pension + R.ni + R.health + R.tax_after)) := by
  cases hp : process P basis t with
  | error e => exact trivial
  | ok R =>
    obtain ⟨h1, h2, h3⟩ := process_fields P basis t R hp
    exact ⟨by rw [h2, h1]; exact apply_credit_eq P R.monthly_gross_taxable h, h3⟩

section
attribute [local semireducible] Rat.add Rat.mul Rat.sub Rat.inv

/-- C6 at a concrete input: the default credit amount 2.25 × 242 = 544.50
is a whole number of cents, and the chain holds on the single-workday
scenario. -/
theorem credit_and_net_witness :
    TwoDp (defaultParams.CREDIT_POINTS * defaultParams.CREDIT_POINT_VALUE) ∧
    OnOk (process defaultParams .DailyWeeklyMax exTable7) (fun R =>
      R.tax_after = max 0 (R.tax_before -
        defaultParams.CREDIT_POINTS * defaultParams.CREDIT_POINT_VALUE) ∧
      R.net = R.monthly_gross_taxable -
        (R.employee_pension + R.ni + R.health + R.tax_after)) :=
  ⟨by unfold TwoDp; decide,
    credit_and_net defaultParams .DailyWeeklyMax exTable7 (by unfold TwoDp; decide)⟩

end

section
attribute [local semireducible] Rat.add Rat.mul Rat.sub Rat.inv

/-- The single-workday month under a credit amount of a third of a shekel
refutes the exact subtraction: the run succeeds, yet tax after credit is
the rounded difference, not `max(0, tax_before − credit)`. -/
theorem credit_and_net_counterexample :
    okChk (process cexParams .DailyWeeklyMax exTable7) (fun _ => true) = true ∧
    okChk (process cexParams .DailyWeeklyMax exTable7) (fun R =>
      R.tax_after = max 0 (R.tax_before -
        cexParams.CREDIT_POINTS * cexParams.CREDIT_POINT_VALUE)) = false :=
  ⟨by decide, by decide⟩

end

/-! ## C2: the max basis dominates both models -/

/-- A failed load yields no rows under any basis. -/
theorem okRows_error (P : Params) (basis : OTBasis) (t : RawTable) (e : Str)
    (hl : load_attendance_from_csv t = .error e) :
    okRows (process P basis t) = [] := by
  unfold okRows process
  rw [hl]

/-- The final table of a loaded month under the "Daily only" basis. -/
theorem okRows_dailyOnly (P : Params) (t : RawTable) (sel : List SelRow)
    (hl : load_attendance_from_csv t = .ok sel) :
    okRows (process P .DailyOnly t) = dailyRowsDef P sel := by
  unfold okRows process dailyRowsDef modelADef pipePaid
  rw [hl]
  rfl

/-- The final table of a loaded month under the "Weekly 42h only" basis. -/
theorem okRows_weeklyOnly (P : Params) (t : RawTable) (sel : List SelRow)
    (hl : load_attendance_from_csv t = .ok sel) :
    okRows (process P .Weekly42Only t) = weeklyRowsDef P sel := by
  unfold okRows process weeklyRowsDef modelBDef pipePaidWeek pipePaid
  rw [hl]
  rfl

/-- The final table of a loaded month under the "Daily + Weekly (max)"
basis. -/
theorem okRows_max (P : Params) (t : RawTable) (sel : List SelRow)
    (hl : load_attendance_from_csv t = .ok sel) :
    okRows (process P .DailyWeeklyMax t) = maxRowsDef P sel := by
  unfold okRows process maxRowsDef modelADef modelBDef modelBnoDailyDef pipePaidWeek pipePaid
  rw [hl]
  rfl

/-- Window overlaps are nonnegative. -/
theorem overlap_minutes_nonneg (aS aE bS bE : ℤ) : 0 ≤ overlap_minutes aS aE bS bE :=
  le_max_left 0 _

/-- The evening loop accumulates nonnegative overlaps. -/
theorem evening_go_nonneg : ∀ (fuel : ℕ) (s e cur : ℤ), 0 ≤ evening_go fuel s e cur := by
  intro fuel
  induction fuel with
  | zero => intro s e cur; exact le_refl 0
  | succ n ih =>
    intro s e cur
    rw [evening_go]
    split
    · exact add_nonneg (overlap_minutes_nonneg _ _ _ _) (ih _ _ _)
    · exact le_refl 0

/-- The night loop accumulates nonnegative overlaps. -/
theorem night_go_nonneg : ∀ (fuel : ℕ) (s e cur : ℤ), 0 ≤ night_go fuel s e cur := by
  intro fuel
  induction fuel with
  | zero => intro s e cur; exact le_refl 0
  | succ n ih =>
    intro s e cur
    rw [night_go]
    split
    · exact add_nonneg (overlap_minutes_nonneg _ _ _ _) (ih _ _ _)
    · exact le_refl 0

/-- The weekend fold accumulates nonnegative overlaps. -/
theorem weekend_foldl_nonneg (s e : ℤ) :
    ∀ (ws : List (ℤ × ℤ)) (acc : ℤ), 0 ≤ acc →
      0 ≤ ws.foldl (fun a w => a + overlap_minutes s e w.1 w.2) acc := by
  intro ws
  induction ws with
  | nil => intro acc h; exact h
  | cons w t ih =>
    intro acc h
    rw [List.foldl_cons]
    exact ih _ (add_nonneg h (overlap_minutes_nonneg _ _ _ _))

/-- Every minutes bucket of every segmented day is nonnegative. -/
theorem dailyRowsCore_minutes_nonneg (P : Params) :
    ∀ (sel : List SelRow) (dr : DailyRow), dr ∈ dailyRowsCore P sel →
      0 ≤ dr.minutes_total ∧ 0 ≤ dr.minutes_evening ∧ 0 ≤ dr.minutes_night ∧
      0 ≤ dr.minutes_weekend ∧ 0 ≤ dr.minutes_holiday := by
  intro sel
  induction sel with
  | nil => intro dr h; simp [dailyRowsCore] at h
  | cons r rest ih =>
    intro dr hdr
    have hsplit : ∀ (c : Prop) (inst : Decidable c) (x : DailyRow) (l : List DailyRow),
        dr ∈ (if c then l else x :: l) → (¬ c ∧ dr = x) ∨ dr ∈ l := by
      intro c inst x l hmem
      split at hmem
      · exact Or.inr hmem
      · rcases List.mem_cons.mp hmem with he | hm
        · exact Or.inl ⟨by assumption, he⟩
        · exact Or.inr hm
    have hite : ∀ (c : Prop) (inst : Decidable c) (x : ℤ), 0 ≤ x →
        0 ≤ (if c then x else 0) := by
      intro c inst x hx
      split
      · exact hx
      · exact le_refl 0
    rw [dailyRowsCore] at hdr
    split at hdr
    · exact ih dr hdr
    · split at hdr
      · exact ih dr hdr
      · split at hdr
        · rcases List.mem_cons.mp hdr with he | hm
          · subst he
            exact ⟨le_refl 0, le_refl 0, le_refl 0, le_refl 0, le_refl 0⟩
          · exact ih dr hm
        · split at hdr
          · rcases hsplit _ _ _ _ hdr with ⟨hc, he⟩ | hm2
            · subst he
              exact ⟨le_of_lt (not_le.mp hc), evening_go_nonneg _ _ _ _,
                night_go_nonneg _ _ _ _, weekend_foldl_nonneg _ _ _ _ (le_refl 0),
                hite _ _ _ (le_of_lt (not_le.mp hc))⟩
            · exact ih dr hm2
          all_goals exact ih dr hdr

/-- With nonnegative minutes and nonnegative rates every pay component of
the per-row column block is nonnegative (travel is still zero there). -/
theorem payColsRow_nonneg (P : Params) (d : DailyRow)
    (hm : 0 ≤ d.minutes_total ∧ 0 ≤ d.minutes_evening ∧ 0 ≤ d.minutes_night ∧
      0 ≤ d.minutes_weekend ∧ 0 ≤ d.minutes_holiday)
    (hw : 0 ≤ P.HOURLY_WAGE) (hev : 0 ≤ P.EVENING_BONUS) (hni : 0 ≤ P.NIGHT_BONUS)
    (hwe : 0 ≤ P.WEEKEND_BONUS) (hho : 0 ≤ P.HOLIDAY_BONUS) :
    nonnegComponents (payColsRow P d) := by
  obtain ⟨h1, h2, h3, h4, h5⟩ := hm
  have q1 : (0 : ℚ) ≤ (d.minutes_total : ℚ) / 60 :=
    div_nonneg (by exact_mod_cast h1) (by norm_num)
  have q2 : (0 : ℚ) ≤ (d.minutes_evening : ℚ) / 60 :=
    div_nonneg (by exact_mod_cast h2) (by norm_num)
  have q3 : (0 : ℚ) ≤ (d.minutes_night : ℚ) / 60 :=
    div_nonneg (by exact_mod_cast h3) (by norm_num)
  have q4 : (0 : ℚ) ≤ (d.minutes_weekend : ℚ) / 60 :=
    div_nonneg (by exact_mod_cast h4) (by norm_num)
  have q5 : (0 : ℚ) ≤ (d.minutes_holiday : ℚ) / 60 :=
    div_nonneg (by exact_mod_cast h5) (by norm_num)
  exact ⟨mul_nonneg q1 hw, mul_nonneg (mul_nonneg q2 hw) hev,
    mul_nonneg (mul_nonneg q3 hw) hni, mul_nonneg (mul_nonneg q4 hw) hwe,
    mul_nonneg (mul_nonneg q5 hw) hho, le_refl 0⟩

/-- Every row of the bonus/daily-overtime calculator has nonnegative pay
components once the minutes feeding it are nonnegative. -/
theorem add_pay_columns_nonneg (P : Params) (daily : List DailyRow)
    (hmins : ∀ dr ∈ daily, 0 ≤ dr.minutes_total ∧ 0 ≤ dr.minutes_evening ∧
      0 ≤ dr.minutes_night ∧ 0 ≤ dr.minutes_weekend ∧ 0 ≤ dr.minutes_holiday)
    (hw : 0 ≤ P.HOURLY_WAGE) (hev : 0 ≤ P.EVENING_BONUS) (hni : 0 ≤ P.NIGHT_BONUS)
    (hwe : 0 ≤ P.WEEKEND_BONUS) (hho : 0 ≤ P.HOLIDAY_BONUS)
    (htr : 0 ≤ P.DAILY_TRAVEL) :
    ∀ r ∈ add_pay_columns P daily, nonnegComponents r := by
  intro r hr
  rw [add_pay_columns] at hr
  obtain ⟨r1, hr1, he⟩ := List.mem_map.mp hr
  obtain ⟨r0, hr0, hor⟩ := assignTravel_mem P [] _ r1 hr1
  obtain ⟨d0, hd0, hpd⟩ := List.mem_map.mp hr0
  subst hpd
  have hcomp := payColsRow_nonneg P d0 (hmins d0 hd0) hw hev hni hwe hho
  obtain ⟨c1, c2, c3, c4, c5, _⟩ := hcomp
  subst he
  rcases hor with he2 | he2
  · subst he2
    exact ⟨c1, c2, c3, c4, c5, le_refl 0⟩
  · subst he2
    exact ⟨c1, c2, c3, c4, c5, htr⟩

/-- Every row of the paid-day table of a loaded month has nonnegative pay
components. -/
theorem pipePaid_nonneg (P : Params) (sel : List SelRow)
    (hw : 0 ≤ P.HOURLY_WAGE) (hev : 0 ≤ P.EVENING_BONUS) (hni : 0 ≤ P.NIGHT_BONUS)
    (hwe : 0 ≤ P.WEEKEND_BONUS) (hho : 0 ≤ P.HOLIDAY_BONUS)
    (htr : 0 ≤ P.DAILY_TRAVEL) :
    ∀ r ∈ pipePaid P sel, nonnegComponents r := by
  intro r hr
  refine add_pay_columns_nonneg P _ ?_ hw hev hni hwe hho htr r hr
  intro dr hdr
  exact dailyRowsCore_minutes_nonneg P sel dr
    ((List.perm_insertionSort dDateLE _).mem_iff.mp hdr)

/-- The travel loop preserves the date sequence. -/
theorem assignTravel_dates (P : Params) :
    ∀ (done : List ℤ) (l : List PaidRow),
      (assignTravel P done l).map (fun r => r.date) = l.map (fun r => r.date) := by
  intro done l
  induction l generalizing done with
  | nil => rfl
  | cons r t ih =>
    rw [assignTravel]
    split
    · rw [List.map_cons, List.map_cons, ih]
    · rw [List.map_cons, List.map_cons, ih]

/-- The bonus/daily-overtime calculator preserves the date sequence. -/
theorem add_pay_columns_dates (P : Params) (daily : List DailyRow) :
    (add_pay_columns P daily).map (fun r => r.date) =
      daily.map (fun d => d.date) := by
  rw [add_pay_columns, List.map_map]
  have h1 : ((fun r : PaidRow => r.date) ∘ setTotal) = fun r : PaidRow => r.date := by
    funext r
    rfl
  rw [h1, assignTravel_dates, List.map_map]
  rfl

/-- The bonus/daily-overtime calculator preserves the row count. -/
theorem add_pay_columns_length (P : Params) (daily : List DailyRow) :
    (add_pay_columns P daily).length = daily.length := by
  rw [add_pay_columns, List.length_map, assignTravel_length, List.length_map]

/-- The weekly walk preserves the row count. -/
theorem ctw_length (P : Params) (th : ℚ) (rows : List PaidRow) :
    (compute_weekly_overtime_topup P th rows).length = rows.length := by
  rw [compute_weekly_overtime_topup, List.length_map, List.enum_length]

/-- Row `i` of the weekly walk: the input row with the regular-hours and
top-up columns filled. -/
theorem ctw_getD (P : Params) (th : ℚ) (rows : List PaidRow) (i : ℕ)
    (h : i < rows.length) :
    (compute_weekly_overtime_topup P th rows).getD i default =
      { rows.getD i default with
        hours_regular_day := min (rows.getD i default).hours_total P.DAILY_REGULAR_HOURS
        weekly_topup_125 := allocLookup (weeklyAllocPairs P th rows) i
        weekly_topup_150 := 0 } := by
  have hlen : i < rows.enum.length := by rw [List.enum_length]; exact h
  rw [compute_weekly_overtime_topup]
  rw [List.getD_eq_getElem _ _ (by rw [List.length_map]; exact hlen), List.getElem_map,
    List.getElem_enum, List.getD_eq_getElem _ _ h]

/-- The weekly walk preserves the date sequence. -/
theorem ctw_dates (P : Params) (th : ℚ) (rows : List PaidRow) :
    (compute_weekly_overtime_topup P th rows).map (fun r => r.date) =
      rows.map (fun r => r.date) := by
  apply List.ext_getElem
  · rw [List.length_map, ctw_length, List.length_map]
  · intro i h1 h2
    rw [List.getElem_map, List.getElem_map]
    have h : i < rows.length := by
      rw [List.length_map] at h2
      exact h2
    have := ctw_getD P th rows i h
    rw [List.getD_eq_getElem _ _ (by rw [ctw_length]; exact h),
      List.getD_eq_getElem _ _ h] at this
    rw [this]

/-- Sortedness of a paid table is sortedness of its date sequence. -/
theorem sorted_pDateLE_iff (l : List PaidRow) :
    List.Sorted pDateLE l ↔
      List.Sorted (· ≤ ·) (l.map (fun r => r.date)) := by
  unfold List.Sorted
  rw [List.pairwise_map]
  exact Iff.rfl

/-- Sortedness of a daily table is sortedness of its date sequence. -/
theorem sorted_dDateLE_iff (l : List DailyRow) :
    List.Sorted dDateLE l ↔
      List.Sorted (· ≤ ·) (l.map (fun r => r.date)) := by
  unfold List.Sorted
  rw [List.pairwise_map]
  exact Iff.rfl

/-- A paid table whose date sequence matches a sorted one is sorted. -/
theorem sorted_of_dates_eq {l l2 : List PaidRow}
    (h : l.map (fun r => r.date) = l2.map (fun r => r.date))
    (hs : List.Sorted pDateLE l2) : List.Sorted pDateLE l := by
  rw [sorted_pDateLE_iff, h]
  rw [sorted_pDateLE_iff] at hs
  exact hs

/-- The paid-day table of a loaded month is sorted by date. -/
theorem pipePaid_sorted (P : Params) (sel : List SelRow) :
    List.Sorted pDateLE (pipePaid P sel) := by
  rw [sorted_pDateLE_iff, pipePaid, add_pay_columns_dates]
  rw [← sorted_dDateLE_iff]
  exact List.sorted_insertionSort dDateLE (dailyRowsCore P sel)

/-- Rows segmented from the tail are still present after one more input
row. -/
theorem dailyRowsCore_cons_sub (P : Params) (r : SelRow) (rest : List SelRow) :
    ∀ dr ∈ dailyRowsCore P rest, dr ∈ dailyRowsCore P (r :: rest) := by
  intro dr h
  have hif : ∀ (c : Prop) (inst : Decidable c) (x : DailyRow) (l : List DailyRow),
      dr ∈ l → dr ∈ (if c then l else x :: l) := by
    intro c inst x l hm
    split
    · exact hm
    · exact List.mem_cons_of_mem _ hm
  rw [dailyRowsCore]
  split
  · exact h
  · split
    · exact h
    · split
      · exact List.mem_cons_of_mem _ h
      · split
        · exact hif _ _ _ _ h
        all_goals exact h

/-- A date contributed by a sick input row always owns a segmented daily
row of that date. -/
theorem sick_date_has_row (P : Params) :
    ∀ (sel : List SelRow) (d : ℤ),
      d ∈ sel.filterMap (fun r =>
        let s := trimC r.status
        if is_sick P s ∧ ¬ is_no_att P s then parse_date r.date else none) →
      ∃ dr ∈ dailyRowsCore P sel, dr.date = d := by
  intro sel
  induction sel with
  | nil => intro d h; simp at h
  | cons r rest ih =>
    intro d hd
    rw [List.filterMap_cons] at hd
    split at hd
    · obtain ⟨dr, hdr, hde⟩ := ih d hd
      exact ⟨dr, dailyRowsCore_cons_sub P r rest dr hdr, hde⟩
    · rcases List.mem_cons.mp hd with he | hm
      · subst he
        rename_i b heq
        have heq2 : (if is_sick P (trimC r.status) = true ∧
            ¬ is_no_att P (trimC r.status) = true
            then parse_date r.date else none) = some d := heq
        split at heq2
        · rename_i hcond
          rw [dailyRowsCore, if_neg hcond.2, heq2]
          show ∃ dr ∈ (if is_sick P (trimC r.status) = true
            then _ :: dailyRowsCore P rest else _), dr.date = d
          rw [if_pos hcond.1]
          exact ⟨_, List.mem_cons_self _ _, rfl⟩
        · exact absurd heq2 (by simp)
      · obtain ⟨dr, hdr, hde⟩ := ih d hm
        exact ⟨dr, dailyRowsCore_cons_sub P r rest dr hdr, hde⟩

/-- Every sick date owns a segmented daily row of that date. -/
theorem sick_dates_covered (P : Params) (sel : List SelRow) :
    ∀ d ∈ sick_dates P sel, ∃ dr ∈ dailyRowsCore P sel, dr.date = d := by
  intro d hd
  apply sick_date_has_row
  rw [sick_dates] at hd
  exact List.mem_dedup.mp ((List.perm_insertionSort _ _).mem_iff.mp hd)

/-- The sick adjustment keeps the row's date. -/
theorem sickAdjust_date (m : List (ℤ × ℚ)) (r : PaidRow) :
    (sickAdjust m r).date = r.date := by
  rw [sickAdjust]
  cases mapLookup m r.date
  · rfl
  · rfl

/-- The sick adjustment keeps the date sequence. -/
theorem sickAdjust_dates (m : List (ℤ × ℚ)) (df : List PaidRow) :
    (df.map (sickAdjust m)).map (fun r => r.date) = df.map (fun r => r.date) := by
  rw [List.map_map]
  apply List.map_congr_left
  intro r _
  exact sickAdjust_date m r

/-- On a date-sorted table owning a row for every sick date, `add_sick_pay`
never appends nor reorders: it is exactly the per-row sick adjustment. -/
theorem add_sick_pay_eq_map (P : Params) (df : List PaidRow) (sel : List SelRow)
    (hs : List.Sorted pDateLE df)
    (hcov : ∀ d ∈ sick_dates P sel, ∃ r ∈ df, r.date = d) :
    add_sick_pay P df sel = df.map (sickAdjust (sickMap P df sel)) := by
  by_cases hds : sick_dates P sel = []
  · rw [add_sick_pay, if_pos hds]
    have hm : sickMap P df sel = [] := by
      rw [sickMap, hds]
      rfl
    rw [hm]
    apply List.map_congr_left
    intro r _
    rfl
  · rw [add_sick_pay, if_neg hds]
    have hnd : ((sickMap P df sel).map Prod.fst).Nodup := by
      rw [sickMap, build_pay_map_fsts]
      exact sick_dates_nodup P sel
    rw [sickFold_spec _ _ hnd]
    have hfil : (sickMap P df sel).filter
        (fun dp => ¬ (df.map (fun r => { r with pay_sick := 0 })).any
          (fun r => r.date = dp.1)) = [] := by
      rw [List.filter_eq_nil_iff]
      intro dp hdp
      have hd1 : dp.1 ∈ sick_dates P sel := by
        have := List.mem_map_of_mem Prod.fst hdp
        rw [sickMap, build_pay_map_fsts] at this
        exact this
      obtain ⟨r, hr, hrd⟩ := hcov dp.1 hd1
      have hany : ((df.map (fun r => { r with pay_sick := 0 })).any
          (fun r => r.date = dp.1)) = true := by
        rw [List.any_eq_true]
        refine ⟨_, List.mem_map_of_mem _ hr, ?_⟩
        simp [hrd]
      simp [hany]
    rw [hfil, List.map_nil, List.append_nil, List.map_map]
    have hmap : df.map (sickUpd (sickMap P df sel) ∘ fun r => { r with pay_sick := 0 }) =
        df.map (sickAdjust (sickMap P df sel)) := by
      apply List.map_congr_left
      intro r _
      rfl
    rw [hmap]
    exact List.Sorted.insertionSort_eq
      (sorted_of_dates_eq (sickAdjust_dates _ df) hs)

/-- A date present in one list of rows is present in any list with the
same date sequence. -/
theorem date_mem_of_dates_eq {l l2 : List PaidRow} {d : ℤ}
    (h : l.map (fun r => r.date) = l2.map (fun r => r.date))
    (hm : ∃ r ∈ l2, r.date = d) : ∃ r ∈ l, r.date = d := by
  obtain ⟨r, hr, hrd⟩ := hm
  have h1 : d ∈ l.map (fun r => r.date) := by
    rw [h]
    exact List.mem_map.mpr ⟨r, hr, hrd⟩
  obtain ⟨r2, hr2, hrd2⟩ := List.mem_map.mp h1
  exact ⟨r2, hr2, hrd2⟩

/-- Every sick date owns a row of the paid-day table. -/
theorem pipePaid_covers (P : Params) (sel : List SelRow) :
    ∀ d ∈ sick_dates P sel, ∃ r ∈ pipePaid P sel, r.date = d := by
  intro d hd
  obtain ⟨dr, hdr, hde⟩ := sick_dates_covered P sel d hd
  have h1 : d ∈ (dailyRowsCore P sel).map (fun x => x.date) :=
    List.mem_map.mpr ⟨dr, hdr, hde⟩
  have h2 : d ∈ (compute_daily_rows P sel).map (fun x => x.date) := by
    rw [compute_daily_rows]
    exact ((List.perm_insertionSort dDateLE _).map _).mem_iff.mpr h1
  have h3 : d ∈ (pipePaid P sel).map (fun r => r.date) := by
    rw [pipePaid, add_pay_columns_dates]
    exact h2
  obtain ⟨r, hr, hrd⟩ := List.mem_map.mp h3
  exact ⟨r, hr, hrd⟩

/-- The pure-daily table with zeroed top-up keeps the paid dates. -/
theorem tzDates (P : Params) (sel : List SelRow) :
    ((pipePaid P sel).map (fun r => { r with pay_weekly_topup := 0 })).map
        (fun r => r.date) = (pipePaid P sel).map (fun r => r.date) := by
  rw [List.map_map]
  rfl

/-- The weekly-reconciled table keeps the paid dates. -/
theorem pipePaidWeek_dates (P : Params) (sel : List SelRow) :
    (pipePaidWeek P sel).map (fun r => r.date) =
      (pipePaid P sel).map (fun r => r.date) := by
  rw [pipePaidWeek, List.map_map]
  have h1 : ((fun r : PaidRow => r.date) ∘ fun r =>
      { r with pay_weekly_topup := r.weekly_topup_125 + r.weekly_topup_150 }) =
      fun r : PaidRow => r.date := by
    funext r
    rfl
  rw [h1, ctw_dates]

/-- Model A is the per-row sick adjustment of the zero-top-up paid table. -/
theorem modelADef_eq (P : Params) (sel : List SelRow) :
    modelADef P sel =
      ((pipePaid P sel).map (fun r => { r with pay_weekly_topup := 0 })).map
        (sickAdjust (sickMap P
          ((pipePaid P sel).map (fun r => { r with pay_weekly_topup := 0 })) sel)) := by
  rw [modelADef]
  apply add_sick_pay_eq_map
  · exact sorted_of_dates_eq (tzDates P sel) (pipePaid_sorted P sel)
  · intro d hd
    exact date_mem_of_dates_eq (tzDates P sel) (pipePaid_covers P sel d hd)

/-- Model B is the per-row sick adjustment of the weekly-reconciled table. -/
theorem modelBDef_eq (P : Params) (sel : List SelRow) :
    modelBDef P sel =
      (pipePaidWeek P sel).map
        (sickAdjust (sickMap P (pipePaidWeek P sel) sel)) := by
  rw [modelBDef]
  apply add_sick_pay_eq_map
  · exact sorted_of_dates_eq (pipePaidWeek_dates P sel) (pipePaid_sorted P sel)
  · intro d hd
    exact date_mem_of_dates_eq (pipePaidWeek_dates P sel) (pipePaid_covers P sel d hd)

/-- Model A has one row per paid day. -/
theorem modelADef_length (P : Params) (sel : List SelRow) :
    (modelADef P sel).length = (pipePaid P sel).length := by
  rw [modelADef_eq, List.length_map, List.length_map]

/-- Model B has one row per paid day. -/
theorem modelBDef_length (P : Params) (sel : List SelRow) :
    (modelBDef P sel).length = (pipePaid P sel).length := by
  rw [modelBDef_eq, List.length_map, pipePaidWeek, List.length_map, ctw_length]

/-- Row `i` of the max-basis final table: the model-A row with the larger
of the two per-day totals and a zeroed top-up column. -/
theorem maxRowsDef_getD (P : Params) (sel : List SelRow) (i : ℕ)
    (hi : i < (modelADef P sel).length)
    (hlt : i < (modelBnoDailyDef P sel).length) :
    (maxRowsDef P sel).getD i default =
      { (modelADef P sel).getD i default with
        pay_total_day :=
          if ((modelADef P sel).getD i default).pay_total_day < bTotDef P sel i
          then bTotDef P sel i
          else ((modelADef P sel).getD i default).pay_total_day
        pay_weekly_topup := 0 } := by
  rw [show (modelADef P sel).getD i default = (modelADef P sel).get ⟨i, hi⟩ from
    List.getD_eq_getElem _ _ hi]
  rw [maxRowsDef]
  rw [List.getD_eq_getElem _ _ (by
    rw [List.length_map, List.enum_length]
    exact hi)]
  rw [List.getElem_map, List.getElem_enum]
  simp only []
  rw [if_pos hlt]
  rfl
/-- Row `i` of the weekly-reconciled table: the paid row with the
regular-hours and top-up columns filled. -/
theorem pipePaidWeek_getD (P : Params) (sel : List SelRow) (i : ℕ)
    (h : i < (pipePaid P sel).length) :
    (pipePaidWeek P sel).getD i default =
      { (pipePaid P sel).getD i default with
        hours_regular_day :=
          min ((pipePaid P sel).getD i default).hours_total P.DAILY_REGULAR_HOURS
        weekly_topup_125 := allocLookup (weeklyAllocPairs P 42 (pipePaid P sel)) i
        weekly_topup_150 := 0
        pay_weekly_topup := allocLookup (weeklyAllocPairs P 42 (pipePaid P sel)) i + 0 } := by
  rw [pipePaidWeek, getD_map_of_lt _ _ i default default (by
    rw [ctw_length]
    exact h), ctw_getD P 42 _ i h]

/-- The per-day comparison of the max basis: every final row dominates the
pure-daily and the pure-weekly row of the same position and date, and
carries a zero top-up column. -/
theorem maxRows_core (P : Params) (sel : List SelRow)
    (hw : 0 ≤ P.HOURLY_WAGE) (hev : 0 ≤ P.EVENING_BONUS) (hni : 0 ≤ P.NIGHT_BONUS)
    (hwe : 0 ≤ P.WEEKEND_BONUS) (hho : 0 ≤ P.HOLIDAY_BONUS) (htr : 0 ≤ P.DAILY_TRAVEL) :
    (maxRowsDef P sel).length = (dailyRowsDef P sel).length ∧
    (maxRowsDef P sel).length = (weeklyRowsDef P sel).length ∧
    ∀ i < (maxRowsDef P sel).length,
      ((dailyRowsDef P sel).getD i default).date =
        ((maxRowsDef P sel).getD i default).date ∧
      ((weeklyRowsDef P sel).getD i default).date =
        ((maxRowsDef P sel).getD i default).date ∧
      ((dailyRowsDef P sel).getD i default).pay_total_day ≤
        ((maxRowsDef P sel).getD i default).pay_total_day ∧
      ((weeklyRowsDef P sel).getD i default).pay_total_day ≤
        ((maxRowsDef P sel).getD i default).pay_total_day ∧
      ((maxRowsDef P sel).getD i default).pay_weekly_topup = 0 := by
  have hlA := modelADef_length P sel
  have hlB := modelBDef_length P sel
  have hlmax : (maxRowsDef P sel).length = (modelADef P sel).length := by
    rw [maxRowsDef, List.length_map, List.enum_length]
  have hlday : (dailyRowsDef P sel).length = (modelADef P sel).length := by
    rw [dailyRowsDef, List.length_map]
  have hlweek : (weeklyRowsDef P sel).length = (modelBDef P sel).length := by
    rw [weeklyRowsDef, List.length_map]
  have hlnb : (modelBnoDailyDef P sel).length = (pipePaid P sel).length := by
    rw [modelBnoDailyDef, List.length_map]
  have hlpw : (pipePaidWeek P sel).length = (pipePaid P sel).length := by
    rw [pipePaidWeek, List.length_map, ctw_length]
  have hltz : ((pipePaid P sel).map
      (fun r => { r with pay_weekly_topup := 0 })).length = (pipePaid P sel).length := by
    rw [List.length_map]
  refine ⟨by omega, by omega, ?_⟩
  intro i hi
  have hiA : i < (modelADef P sel).length := by omega
  have hiP : i < (pipePaid P sel).length := by omega
  have hinb : i < (modelBnoDailyDef P sel).length := by omega
  have hiB : i < (modelBDef P sel).length := by omega
  have hmax := maxRowsDef_getD P sel i hiA hinb
  have hday : (dailyRowsDef P sel).getD i default =
      { (modelADef P sel).getD i default with pay_weekly_topup := 0 } := by
    rw [dailyRowsDef, getD_map_of_lt _ _ i default default hiA]
  have hB : (modelBDef P sel).getD i default =
      sickAdjust (sickMap P (pipePaidWeek P sel) sel)
        ((pipePaidWeek P sel).getD i default) := by
    rw [modelBDef_eq, getD_map_of_lt _ _ i default default (by
      rw [hlpw]
      exact hiP)]
  have hA : (modelADef P sel).getD i default =
      sickAdjust (sickMap P ((pipePaid P sel).map
          (fun r => { r with pay_weekly_topup := 0 })) sel)
        (((pipePaid P sel).map (fun r => { r with pay_weekly_topup := 0 })).getD
          i default) := by
    rw [modelADef_eq, getD_map_of_lt _ _ i default default (by
      rw [hltz]
      exact hiP)]
  have hpw := pipePaidWeek_getD P sel i hiP
  have hnb : (modelBnoDailyDef P sel).getD i default =
      { (pipePaid P sel).getD i default with
        pay_overtime_t1 := 0, pay_overtime_t2 := 0 } := by
    rw [modelBnoDailyDef, getD_map_of_lt _ _ i default default hiP]
  have hnn : nonnegComponents ((pipePaid P sel).getD i default) := by
    apply pipePaid_nonneg P sel hw hev hni hwe hho htr
    rw [List.getD_eq_getElem _ _ hiP]
    exact List.getElem_mem hiP
  obtain ⟨n1, n2, n3, n4, n5, n6⟩ := hnn
  have f1 : ((modelBnoDailyDef P sel).getD i default).pay_base =
      ((pipePaid P sel).getD i default).pay_base := by rw [hnb]
  have f2 : ((modelBnoDailyDef P sel).getD i default).pay_evening_bonus =
      ((pipePaid P sel).getD i default).pay_evening_bonus := by rw [hnb]
  have f3 : ((modelBnoDailyDef P sel).getD i default).pay_night_bonus =
      ((pipePaid P sel).getD i default).pay_night_bonus := by rw [hnb]
  have f4 : ((modelBnoDailyDef P sel).getD i default).pay_weekend_bonus =
      ((pipePaid P sel).getD i default).pay_weekend_bonus := by rw [hnb]
  have f5 : ((modelBnoDailyDef P sel).getD i default).pay_holiday_bonus =
      ((pipePaid P sel).getD i default).pay_holiday_bonus := by rw [hnb]
  have f6 : ((modelBnoDailyDef P sel).getD i default).travel_pay =
      ((pipePaid P sel).getD i default).travel_pay := by rw [hnb]
  have g1 : ((pipePaidWeek P sel).getD i default).pay_base =
      ((pipePaid P sel).getD i default).pay_base := by rw [hpw]
  have g2 : ((pipePaidWeek P sel).getD i default).pay_evening_bonus =
      ((pipePaid P sel).getD i default).pay_evening_bonus := by rw [hpw]
  have g3 : ((pipePaidWeek P sel).getD i default).pay_night_bonus =
      ((pipePaid P sel).getD i default).pay_night_bonus := by rw [hpw]
  have g4 : ((pipePaidWeek P sel).getD i default).pay_weekend_bonus =
      ((pipePaid P sel).getD i default).pay_weekend_bonus := by rw [hpw]
  have g5 : ((pipePaidWeek P sel).getD i default).pay_holiday_bonus =
      ((pipePaid P sel).getD i default).pay_holiday_bonus := by rw [hpw]
  have g6 : ((pipePaidWeek P sel).getD i default).travel_pay =
      ((pipePaid P sel).getD i default).travel_pay := by rw [hpw]
  have gd : ((pipePaidWeek P sel).getD i default).date =
      ((pipePaid P sel).getD i default).date := by rw [hpw]
  have hW : ((weeklyRowsDef P sel).getD i default).pay_total_day =
      ((modelBDef P sel).getD i default).pay_base +
      ((modelBDef P sel).getD i default).pay_evening_bonus +
      ((modelBDef P sel).getD i default).pay_night_bonus +
      ((modelBDef P sel).getD i default).pay_weekend_bonus +
      ((modelBDef P sel).getD i default).pay_holiday_bonus +
      ((modelBDef P sel).getD i default).travel_pay +
      ((modelBDef P sel).getD i default).pay_weekly_topup := by
    rw [weeklyRowsDef, getD_map_of_lt _ _ i default default hiB]
  have hWb : ((weeklyRowsDef P sel).getD i default).pay_total_day ≤
      bTotDef P sel i := by
    rw [hW, bTotDef, f1, f2, f3, f4, f5, f6]
    cases hml : mapLookup (sickMap P (pipePaidWeek P sel) sel)
        (((pipePaidWeek P sel).getD i default).date) with
    | some p =>
      have hBv : (modelBDef P sel).getD i default =
          zeroWorkCols ((pipePaidWeek P sel).getD i default) p := by
        rw [hB, sickAdjust, hml]
      have e1 : ((modelBDef P sel).getD i default).pay_base = 0 := by
        rw [hBv]
        rfl
      have e2 : ((modelBDef P sel).getD i default).pay_evening_bonus = 0 := by
        rw [hBv]
        rfl
      have e3 : ((modelBDef P sel).getD i default).pay_night_bonus = 0 := by
        rw [hBv]
        rfl
      have e4 : ((modelBDef P sel).getD i default).pay_weekend_bonus = 0 := by
        rw [hBv]
        rfl
      have e5 : ((modelBDef P sel).getD i default).pay_holiday_bonus = 0 := by
        rw [hBv]
        rfl
      have e6 : ((modelBDef P sel).getD i default).travel_pay = 0 := by
        rw [hBv]
        rfl
      rw [e1, e2, e3, e4, e5, e6]
      linarith
    | none =>
      have hBv : (modelBDef P sel).getD i default =
          { (pipePaidWeek P sel).getD i default with pay_sick := 0 } := by
        rw [hB, sickAdjust, hml]
      have e1 : ((modelBDef P sel).getD i default).pay_base =
          ((pipePaidWeek P sel).getD i default).pay_base := by rw [hBv]
      have e2 : ((modelBDef P sel).getD i default).pay_evening_bonus =
          ((pipePaidWeek P sel).getD i default).pay_evening_bonus := by rw [hBv]
      have e3 : ((modelBDef P sel).getD i default).pay_night_bonus =
          ((pipePaidWeek P sel).getD i default).pay_night_bonus := by rw [hBv]
      have e4 : ((modelBDef P sel).getD i default).pay_weekend_bonus =
          ((pipePaidWeek P sel).getD i default).pay_weekend_bonus := by rw [hBv]
      have e5 : ((modelBDef P sel).getD i default).pay_holiday_bonus =
          ((pipePaidWeek P sel).getD i default).pay_holiday_bonus := by rw [hBv]
      have e6 : ((modelBDef P sel).getD i default).travel_pay =
          ((pipePaidWeek P sel).getD i default).travel_pay := by rw [hBv]
      rw [e1, e2, e3, e4, e5, e6, g1, g2, g3, g4, g5, g6]
  have hAdate : ((modelADef P sel).getD i default).date =
      ((pipePaid P sel).getD i default).date := by
    rw [hA, sickAdjust_date, getD_map_of_lt _ _ i default default hiP]
  have hmaxd : ((maxRowsDef P sel).getD i default).date =
      ((modelADef P sel).getD i default).date := by rw [hmax]
  have hmaxt : ((maxRowsDef P sel).getD i default).pay_total_day =
      (if ((modelADef P sel).getD i default).pay_total_day < bTotDef P sel i
       then bTotDef P sel i
       else ((modelADef P sel).getD i default).pay_total_day) := by rw [hmax]
  have hmaxtop : ((maxRowsDef P sel).getD i default).pay_weekly_topup = 0 := by
    rw [hmax]
  have hdayd : ((dailyRowsDef P sel).getD i default).date =
      ((modelADef P sel).getD i default).date := by rw [hday]
  have hdayt : ((dailyRowsDef P sel).getD i default).pay_total_day =
      ((modelADef P sel).getD i default).pay_total_day := by rw [hday]
  have hweekd : ((weeklyRowsDef P sel).getD i default).date =
      ((modelBDef P sel).getD i default).date := by
    rw [weeklyRowsDef, getD_map_of_lt _ _ i default default hiB]
  have hBdate : ((modelBDef P sel).getD i default).date =
      ((pipePaid P sel).getD i default).date := by
    rw [hB, sickAdjust_date, gd]
  have hgeA : ((modelADef P sel).getD i default).pay_total_day ≤
      ((maxRowsDef P sel).getD i default).pay_total_day := by
    rw [hmaxt]
    split
    · linarith
    · exact le_refl _
  have hgeB : bTotDef P sel i ≤
      ((maxRowsDef P sel).getD i default).pay_total_day := by
    rw [hmaxt]
    split
    · exact le_refl _
    · linarith
  refine ⟨?_, ?_, ?_, ?_, hmaxtop⟩
  · rw [hdayd, hmaxd]
  · rw [hweekd, hBdate, hmaxd, hAdate]
  · rw [hdayt]
    exact hgeA
  · exact le_trans hWb hgeB

/-- **C2.** Under the "Daily + Weekly (max)" basis, for every input table
(and nonnegative wage, bonus and travel configuration), the final output
has exactly the rows of the pure-daily and pure-weekly outputs; at every
position the final row carries the same date and a `pay_total_day` at
least the pure-daily model's and at least the pure-weekly model's total
for that day, and its `pay_weekly_topup` column is zero. -/
theorem max_basis_dominates (P : Params) (t : RawTable)
    (hw : 0 ≤ P.HOURLY_WAGE) (hev : 0 ≤ P.EVENING_BONUS) (hni : 0 ≤ P.NIGHT_BONUS)
    (hwe : 0 ≤ P.WEEKEND_BONUS) (hho : 0 ≤ P.HOLIDAY_BONUS)
    (htr : 0 ≤ P.DAILY_TRAVEL) :
    (okRows (process P .DailyWeeklyMax t)).length =
      (okRows (process P .DailyOnly t)).length ∧
    (okRows (process P .DailyWeeklyMax t)).length =
      (okRows (process P .Weekly42Only t)).length ∧
    ∀ i < (okRows (process P .DailyWeeklyMax t)).length,
      ((okRows (process P .DailyOnly t)).getD i default).date =
        ((okRows (process P .DailyWeeklyMax t)).getD i default).date ∧
      ((okRows (process P .Weekly42Only t)).getD i default).date =
        ((okRows (process P .DailyWeeklyMax t)).getD i default).date ∧
      ((okRows (process P .DailyOnly t)).getD i default).pay_total_day ≤
        ((okRows (process P .DailyWeeklyMax t)).getD i default).pay_total_day ∧
      ((okRows (process P .Weekly42Only t)).getD i default).pay_total_day ≤
        ((okRows (process P .DailyWeeklyMax t)).getD i default).pay_total_day ∧
      ((okRows (process P .DailyWeeklyMax t)).getD i default).pay_weekly_topup
        = 0 := by
  cases hl : load_attendance_from_csv t with
  | error e =>
    rw [okRows_error P .DailyWeeklyMax t e hl, okRows_error P .DailyOnly t e hl,
      okRows_error P .Weekly42Only t e hl]
    refine ⟨rfl, rfl, ?_⟩
    intro i hi
    simp at hi
  | ok sel =>
    rw [okRows_max P t sel hl, okRows_dailyOnly P t sel hl,
      okRows_weeklyOnly P t sel hl]
    exact maxRows_core P sel hw hev hni hwe hho htr

section
attribute [local semireducible] Rat.add Rat.mul Rat.sub Rat.inv

/-- C2 at a concrete input: the default configuration is nonnegative, and
the domination holds on a two-workday table. -/
theorem max_basis_dominates_witness :
    (0 ≤ defaultParams.HOURLY_WAGE ∧ 0 ≤ defaultParams.EVENING_BONUS ∧
     0 ≤ defaultParams.NIGHT_BONUS ∧ 0 ≤ defaultParams.WEEKEND_BONUS ∧
     0 ≤ defaultParams.HOLIDAY_BONUS ∧ 0 ≤ defaultParams.DAILY_TRAVEL) ∧
    ((okRows (process defaultParams .DailyWeeklyMax exTableTwoDays)).length =
      (okRows (process defaultParams .DailyOnly exTableTwoDays)).length ∧
    (okRows (process defaultParams .DailyWeeklyMax exTableTwoDays)).length =
      (okRows (process defaultParams .Weekly42Only exTableTwoDays)).length ∧
    ∀ i < (okRows (process defaultParams .DailyWeeklyMax exTableTwoDays)).length,
      ((okRows (process defaultParams .DailyOnly exTableTwoDays)).getD i
          default).date =
        ((okRows (process defaultParams .DailyWeeklyMax exTableTwoDays)).getD i
          default).date ∧
      ((okRows (process defaultParams .Weekly42Only exTableTwoDays)).getD i
          default).date =
        ((okRows (process defaultParams .DailyWeeklyMax exTableTwoDays)).getD i
          default).date ∧
      ((okRows (process defaultParams .DailyOnly exTableTwoDays)).getD i
          default).pay_total_day ≤
        ((okRows (process defaultParams .DailyWeeklyMax exTableTwoDays)).getD i
          default).pay_total_day ∧
      ((okRows (process defaultParams .Weekly42Only exTableTwoDays)).getD i
          default).pay_total_day ≤
        ((okRows (process defaultParams .DailyWeeklyMax exTableTwoDays)).getD i
          default).pay_total_day ∧
      ((okRows (process defaultParams .DailyWeeklyMax exTableTwoDays)).getD i
          default).pay_weekly_topup = 0) :=
  ⟨⟨by decide, by decide, by decide, by decide, by decide, by decide⟩,
    max_basis_dominates defaultParams exTableTwoDays (by decide) (by decide)
      (by decide) (by decide) (by decide) (by decide)⟩

end

end Payroll
